import Mathlib

/-!
# Verification of gog-warp's downloader core

A shallow embedding of the parts of the `gog-warp` crate that the checked
properties concern: the manifest data model (`src/content_system/types`),
URL assembly (`src/utils.rs`), the diff engine
(`src/content_system/downloader/diff.rs`), the patch index
(`src/content_system/patches.rs`), depot selection
(`src/content_system/types/mod.rs`), the required-space walk and the
allocate/spawn phases of `download`
(`src/content_system/downloader/mod.rs`), and the V2 worker's chunk
scheduling (`src/content_system/downloader/worker.rs`).

Effectful Rust code is embedded as pure functions: HTTP responses become
oracle parameters, the filesystem becomes a predicate on path strings,
`unwrap` panics become an explicit panic flag or an `Option` result, and
Rust `HashMap`s over lowercased paths become association lists whose
lookup returns the last binding (`HashMap::insert` overwrites).  Rust
`String::to_lowercase` is modelled per-`Char` (`Char.toLower`), which
agrees with it on the ASCII paths manifests use.
-/

set_option maxRecDepth 8192

namespace GogWarp

/-! ## String helpers (src/utils.rs and std String methods used by the code) -/

/-- `str::replace` restricted to a single-character pattern, as used by
`path().replace('\\', "/")` in `EntryUtils::path`. -/
def replaceChar (c r : Char) (s : String) : String :=
  String.mk (s.toList.map (fun x => if x = c then r else x))

/-- `str::trim_matches('/')`: drop leading and trailing `'/'` characters. -/
def trimSlashes (s : String) : String :=
  String.mk (((s.toList.dropWhile (· = '/')).reverse.dropWhile (· = '/')).reverse)

/-- Path normalization applied by both generations' `EntryUtils::path`:
backslashes to forward slashes, then trim slashes at both ends. -/
def normalizePath (s : String) : String :=
  trimSlashes (replaceChar '\\' '/' s)

/-- `str::to_lowercase`, modelled per character (ASCII-faithful). -/
def lowerStr (s : String) : String :=
  String.mk (s.toList.map Char.toLower)

/-- Leftmost non-overlapping replacement of `pat` by `rep` in a character
list, the semantics of Rust `str::replace` for a nonempty pattern.  The
`fuel` argument makes the recursion structural; it only needs to be at
least the input's length (each step consumes at least one character). -/
def replaceListFuel (pat rep : List Char) : Nat → List Char → List Char
  | _, [] => []
  | 0, s => s
  | fuel + 1, c :: rest =>
    match pat with
    | [] => c :: rest
    | _ :: _ =>
      if pat.isPrefixOf (c :: rest) then
        rep ++ replaceListFuel pat rep fuel ((c :: rest).drop pat.length)
      else
        c :: replaceListFuel pat rep fuel rest

/-- Rust `String::replace(pattern, replacement)` (the patterns the code
builds, `"{param}"`, are never empty). -/
def strReplace (s pat rep : String) : String :=
  String.mk (replaceListFuel pat.toList rep.toList s.toList.length s.toList)

/-- `utils::hash_to_galaxy_path`: `h[0..2]/h[2..4]/h`. -/
def hashToGalaxyPath (hash : String) : String :=
  String.mk (hash.toList.take 2) ++ "/" ++ String.mk ((hash.toList.drop 2).take 2)
    ++ "/" ++ hash

/-- `PathBuf::join` with a relative component, on the string paths the
downloader builds. -/
def pathJoin (root p : String) : String := root ++ "/" ++ p

/-! ## Data model (src/content_system/types) -/

/-- `v2::Chunk`. -/
structure Chunk where
  compressed_md5 : String
  md5 : String
  size : Int
  compressed_size : Int
deriving DecidableEq

/-- `v2::SmallFilesContainerRef`. -/
structure SmallFilesContainerRef where
  offset : Nat
  size : Nat
deriving DecidableEq

/-- `v2::SmallFilesContainer`. -/
structure SmallFilesContainer where
  chunks : List Chunk
deriving DecidableEq

/-- Sum of the `size` fields of a chunk list (the fold in V2
`EntryUtils::size`). -/
def chunksSize (cs : List Chunk) : Int :=
  cs.foldl (fun acc ch => acc + ch.size) 0

/-- Sum of the `compressed_size` fields of a chunk list. -/
def chunksCompressedSize (cs : List Chunk) : Int :=
  cs.foldl (fun acc ch => acc + ch.compressed_size) 0

namespace V2

/-- `v2::DepotFile`. -/
structure DepotFile where
  chunks : List Chunk
  path : String
  sfc_ref : Option SmallFilesContainerRef
  sha256 : Option String
  md5 : Option String
  flags : List String
deriving DecidableEq

/-- `v2::DepotDirectory`. -/
structure DepotDirectory where
  path : String
deriving DecidableEq

/-- `v2::DepotLink`. -/
structure DepotLink where
  path : String
  target : String
deriving DecidableEq

/-- `v2::DepotDiff`. -/
structure DepotDiff where
  md5_source : String
  md5_target : String
  path_source : String
  path_target : String
  md5 : String
  chunks : List Chunk
deriving DecidableEq

/-- `v2::DepotEntry`. -/
inductive DepotEntry where
  | file : DepotFile → DepotEntry
  | directory : DepotDirectory → DepotEntry
  | link : DepotLink → DepotEntry
  | diff : DepotDiff → DepotEntry
deriving DecidableEq

/-- The raw path of a `v2::DepotEntry` before normalization (`Diff`
entries expose `path_source`). -/
def DepotEntry.rawPath : DepotEntry → String
  | .file f => f.path
  | .directory d => d.path
  | .link l => l.path
  | .diff d => d.path_source

/-- `EntryUtils::path` for V2. -/
def DepotEntry.path (e : DepotEntry) : String := normalizePath e.rawPath

/-- `EntryUtils::size` for V2. -/
def DepotEntry.size : DepotEntry → Int
  | .file f => chunksSize f.chunks
  | .diff d => chunksSize d.chunks
  | _ => 0

/-- `EntryUtils::compressed_size` for V2. -/
def DepotEntry.compressedSize : DepotEntry → Int
  | .file f => chunksCompressedSize f.chunks
  | .diff d => chunksCompressedSize d.chunks
  | _ => 0

/-- `EntryUtils::is_dir` for V2. -/
def DepotEntry.isDir : DepotEntry → Bool
  | .directory _ => true
  | _ => false

/-- `EntryUtils::is_support` for V2. -/
def DepotEntry.isSupport : DepotEntry → Bool
  | .file f => f.flags.any (· = "support")
  | _ => false

end V2

namespace V1

/-- `v1::DepotFile`. -/
structure DepotFile where
  path : String
  size : Int
  offset : Option Int
  url : Option String
  hash : String
  support : Bool
  executable : Bool
deriving DecidableEq

/-- `v1::DepotDirectory`. -/
structure DepotDirectory where
  directory : Bool
  path : String
deriving DecidableEq

/-- `v1::DepotEntry`. -/
inductive DepotEntry where
  | file : DepotFile → DepotEntry
  | directory : DepotDirectory → DepotEntry
deriving DecidableEq

/-- The raw path of a `v1::DepotEntry` before normalization. -/
def DepotEntry.rawPath : DepotEntry → String
  | .file f => f.path
  | .directory d => d.path

/-- `EntryUtils::path` for V1. -/
def DepotEntry.path (e : DepotEntry) : String := normalizePath e.rawPath

/-- `EntryUtils::size` for V1. -/
def DepotEntry.size : DepotEntry → Int
  | .file f => f.size
  | _ => 0

/-- `EntryUtils::is_dir` for V1. -/
def DepotEntry.isDir : DepotEntry → Bool
  | .directory _ => true
  | _ => false

/-- `EntryUtils::is_support` for V1. -/
def DepotEntry.isSupport : DepotEntry → Bool
  | .file f => f.support
  | _ => false

end V1

/-- `types::DepotEntry`: the cross-generation entry variant. -/
inductive DepotEntry where
  | v1 : V1.DepotEntry → DepotEntry
  | v2 : V2.DepotEntry → DepotEntry
deriving DecidableEq

/-- `EntryUtils::path` on the combined variant. -/
def DepotEntry.path : DepotEntry → String
  | .v1 e => e.path
  | .v2 e => e.path

/-- `EntryUtils::size` on the combined variant. -/
def DepotEntry.size : DepotEntry → Int
  | .v1 e => e.size
  | .v2 e => e.size

/-- `EntryUtils::compressed_size` on the combined variant (for V1 it
equals `size`). -/
def DepotEntry.compressedSize : DepotEntry → Int
  | .v1 e => e.size
  | .v2 e => e.compressedSize

/-- `EntryUtils::is_dir` on the combined variant. -/
def DepotEntry.isDir : DepotEntry → Bool
  | .v1 e => e.isDir
  | .v2 e => e.isDir

/-- `EntryUtils::is_support` on the combined variant. -/
def DepotEntry.isSupport : DepotEntry → Bool
  | .v1 e => e.isSupport
  | .v2 e => e.isSupport

/-- `types::FileList` (with the `is_dependency` flag set by the
dependency fetcher). -/
structure FileList where
  product_id : String
  files : List DepotEntry
  sfc : Option SmallFilesContainer := none
  is_dependency : Bool := false
deriving DecidableEq

/-! ## Endpoint and URL assembly (src/utils.rs `assemble_url`) -/

/-- The shapes of `serde_json::Value` that `assemble_url` distinguishes:
strings, numbers, anything else. -/
inductive JsonValue where
  | str : String → JsonValue
  | num : Int → JsonValue
  | other : JsonValue
deriving DecidableEq

/-- The stringification `assemble_url` applies to a parameter value. -/
def jsonValueToString : JsonValue → String
  | .str v => v
  | .num n => toString n
  | .other => ""

/-- `types::Endpoint`.  The `parameters` map is carried as an association
list fixing one iteration order of the Rust `HashMap`. -/
structure Endpoint where
  endpoint_name : String
  url : String
  url_format : String
  parameters : List (String × JsonValue)
  priority : Nat
  max_fails : Nat
  supports_generation : List Nat
  fallback_only : Bool
deriving DecidableEq

/-- `utils::assemble_url`: with no parameters, append `"/" + path` to
`url_format`; otherwise substitute every `{param}` occurrence, the
`"path"` parameter's value first extended with `"/" + path`. -/
def assembleUrl (endpoint : Endpoint) (path : String) : String :=
  if endpoint.parameters = [] then
    endpoint.url_format ++ "/" ++ path
  else
    endpoint.parameters.foldl (fun url pv =>
      let url_param := "\x7b" ++ pv.1 ++ "\x7d"
      let base_value := jsonValueToString pv.2
      let new_value := if pv.1 = "path" then base_value ++ "/" ++ path else base_value
      strReplace url url_param new_value) endpoint.url_format

/-! ## Diff engine (src/content_system/downloader/diff.rs)

`diff` builds two `HashMap<String, &DepotEntry>`s keyed by lowercased
normalized path.  The maps are embedded as association lists in insertion
order with last-binding-wins lookup; `final_download` (a `HashSet` of the
new map's keys) is a duplicate-free string list.  The two reachable
`unwrap` panics — the patch loop's lookup of a patch path in the new map,
and `of.chunks().first().unwrap()` in the V1-new/V2-old arm — are
tracked by an explicit panic flag, and `diff` returns `none` when either
fires. -/

/-- `diff::Patch`. -/
structure Patch where
  product_id : String
  diff : V2.DepotEntry
  destination_file : V2.DepotEntry
deriving DecidableEq

/-- `diff::DiffReport` (`number_of_files` is a `u32` in the source; the
counts involved never approach the wrap-around). -/
structure DiffReport where
  download : List FileList
  patches : List Patch
  directories : List DepotEntry
  deleted : List DepotEntry
  number_of_files : Nat
deriving DecidableEq

/-- The insertion sequence of `map_list`: every entry of every list,
keyed by its lowercased normalized path. -/
def mapListPairs (lists : List FileList) : List (String × DepotEntry) :=
  lists.foldl (fun m l => l.files.foldl (fun m e => m ++ [(lowerStr e.path, e)]) m) []

/-- `HashMap` lookup over the insertion sequence: the last binding wins
(`insert` overwrites). -/
def mapLookup (m : List (String × DepotEntry)) (k : String) : Option DepotEntry :=
  (m.reverse.find? (fun kv => kv.1 = k)).map (·.2)

/-- `HashMap::contains_key` over the insertion sequence. -/
def mapContains (m : List (String × DepotEntry)) (k : String) : Bool :=
  m.any (fun kv => kv.1 = k)

/-- Helper for `mapKeys`: keep the first occurrence of every string. -/
def dedupFirstGo : List String → List String → List String
  | [], _ => []
  | x :: xs, seen => if x ∈ seen then dedupFirstGo xs seen else x :: dedupFirstGo xs (x :: seen)

/-- Keep the first occurrence of every string. -/
def dedupFirst (l : List String) : List String := dedupFirstGo l []

/-- The map's key set, as a duplicate-free list (one fixed enumeration
order of the Rust `HashMap`; the properties proved below are
order-independent). -/
def mapKeys (m : List (String × DepotEntry)) : List String :=
  dedupFirst (m.map (·.1))

/-- The lowercased paths the patch loop inserts into `patched_files`: one
for every `DepotEntry::V2` entry of every patch list. -/
def patchedPaths (patchLists : List FileList) : List String :=
  patchLists.foldl (fun acc l =>
    l.files.foldl (fun acc e =>
      match e with
      | .v2 v2e => acc ++ [lowerStr v2e.path]
      | .v1 _ => acc) acc) []

/-- Whether the patch loop's `new.get(..).cloned().unwrap()` panics: some
`DepotEntry::V2` patch entry's lowercased path has no binding in the
new-entries map. -/
def patchLookupPanics (newM : List (String × DepotEntry)) (patchLists : List FileList) : Bool :=
  patchLists.any (fun l =>
    l.files.any (fun e =>
      match e with
      | .v2 v2e => (mapLookup newM (lowerStr v2e.path)).isNone
      | .v1 _ => false))

/-- The `report.patches` the patch loop pushes: one `Patch` per
`DepotEntry::V2` patch entry whose looked-up new entry is itself V2
(meaningful when `patchLookupPanics` is false). -/
def buildPatches (newM : List (String × DepotEntry)) (patchLists : List FileList) : List Patch :=
  patchLists.foldl (fun acc l =>
    l.files.foldl (fun acc e =>
      match e with
      | .v2 v2e =>
        match mapLookup newM (lowerStr v2e.path) with
        | some (.v2 vf) => acc ++ [⟨l.product_id, v2e, vf⟩]
        | _ => acc
      | .v1 _ => acc) acc) []

/-- What one arm of the classification `match` in `diff` does for the new
entry `nf` at key `p`: emit to `directories`, remove `p` from
`final_download`, or panic. -/
structure ClassDecision where
  emitDir : Bool
  remove : Bool
  panics : Bool
deriving DecidableEq

/-- The classification `match` of `diff` (lines 78–163), arm for arm:
directories of either generation are emitted; a path with no old entry
stays; V1/V1 compares `hash`; V2-new/V1-old compares `md5` (or the first
chunk's md5 when `md5` is `None`) against the old `hash`, empty files
staying; V1-new/V2-old symmetrically (panicking when the old V2 file has
neither `md5` nor a chunk); V2/V2 keeps empty files, removes patched
paths, removes on an identical single chunk, and removes on a matching
whole-file md5 or sha256; every other combination only logs. -/
def classDecision (patched : List String) (p : String) (nf : DepotEntry)
    (oldE : Option DepotEntry) : ClassDecision :=
  match nf, oldE with
  | .v1 (.directory _), _ => ⟨true, false, false⟩
  | .v2 (.directory _), _ => ⟨true, false, false⟩
  | _, none => ⟨false, false, false⟩
  | .v1 (.file nf), some (.v1 (.file of)) => ⟨false, decide (nf.hash = of.hash), false⟩
  | .v2 (.file nf), some (.v1 (.file of)) =>
    match nf.chunks with
    | [] => ⟨false, false, false⟩
    | c :: _ => ⟨false, decide (nf.md5.getD c.md5 = of.hash), false⟩
  | .v1 (.file nf), some (.v2 (.file of)) =>
    if nf.size = 0 then ⟨false, false, false⟩
    else
      match of.md5, of.chunks with
      | some m, _ => ⟨false, decide (m = nf.hash), false⟩
      | none, c :: _ => ⟨false, decide (c.md5 = nf.hash), false⟩
      | none, [] => ⟨false, false, true⟩
  | .v2 (.file nf), some (.v2 (.file of)) =>
    match nf.chunks with
    | [] => ⟨false, false, false⟩
    | nc :: _ =>
      if p ∈ patched then ⟨false, true, false⟩
      else if nf.chunks.length = 1 ∧ of.chunks.length = 1 ∧
          (of.chunks.headD nc).md5 = nc.md5 then ⟨false, true, false⟩
      else ⟨false, decide ((nf.md5.isSome ∧ of.md5.isSome ∧ nf.md5 = of.md5) ∨
          (nf.sha256.isSome ∧ of.sha256.isSome ∧ nf.sha256 = of.sha256)), false⟩
  | _, _ => ⟨false, false, false⟩

/-- `final_download` after the classification loop: start from the new
map's key set and erase every key whose arm removes it. -/
def classifySet (newM oldM : List (String × DepotEntry)) (patched : List String) : List String :=
  (mapKeys newM).foldl (fun s p =>
    match mapLookup newM p with
    | none => s
    | some nf => if (classDecision patched p nf (mapLookup oldM p)).remove then s.erase p else s)
    (mapKeys newM)

/-- `report.directories` after the classification loop. -/
def classifyDirectories (newM oldM : List (String × DepotEntry)) (patched : List String) :
    List DepotEntry :=
  (mapKeys newM).foldl (fun dirs p =>
    match mapLookup newM p with
    | none => dirs
    | some nf => if (classDecision patched p nf (mapLookup oldM p)).emitDir
        then dirs ++ [nf] else dirs) []

/-- Whether some classification arm panics. -/
def classifyPanics (newM oldM : List (String × DepotEntry)) (patched : List String) : Bool :=
  (mapKeys newM).any (fun p =>
    match mapLookup newM p with
    | none => false
    | some nf => (classDecision patched p nf (mapLookup oldM p)).panics)

/-- The `needs_sfc` update of the rebuild loop: a kept V2 file with an
`sfc_ref` turns the flag on. -/
def sfcRefNeeds : DepotEntry → Bool
  | .v2 (.file f) => f.sfc_ref.isSome
  | _ => false

/-- The inner loop of the download-list rebuild: keep the entries whose
lowercased path is still in `final_download` (removing each claimed path
from the set), tracking whether some kept V2 file references the SFC. -/
def rebuildFiles : List DepotEntry → List String → Bool → List DepotEntry →
    List DepotEntry × List String × Bool
  | [], s, needs, kept => (kept, s, needs)
  | e :: rest, s, needs, kept =>
    let p := lowerStr e.path
    if p ∈ s then
      rebuildFiles rest (s.erase p) (if needs then true else sfcRefNeeds e) (kept ++ [e])
    else rebuildFiles rest s needs kept

/-- The download-list rebuild over all new lists: a list keeps its `sfc`
only when some kept file references it, and is pushed only when
nonempty; `number_of_files` accumulates the kept counts. -/
def rebuildLists (lists : List FileList) (s0 : List String) :
    List FileList × List String × Nat :=
  lists.foldl (fun acc l =>
    let r := rebuildFiles l.files acc.2.1 false []
    let newList : FileList := ⟨l.product_id, r.1, if r.2.2 then l.sfc else none,
      l.is_dependency⟩
    if r.1 = [] then (acc.1, r.2.1, acc.2.2)
    else (acc.1 ++ [newList], r.2.1, acc.2.2 + r.1.length)) ([], s0, 0)

/-- `deleted_paths`: the old map's keys absent from the new map.  (The
inserted string — the looked-up entry's lowercased path — always equals
the key it was inserted under.) -/
def deletedPathsOf (newM oldM : List (String × DepotEntry)) : List String :=
  (mapKeys oldM).filter (fun k => ¬ mapContains newM k)

/-- `report.deleted`: every old entry whose lowercased path is a deleted
path. -/
def deletedEntries (oldLists : List FileList) (dels : List String) : List DepotEntry :=
  oldLists.foldl (fun acc l =>
    acc ++ l.files.filter (fun e => dels.contains (lowerStr e.path))) []

/-- Whether `diff` panics on these inputs. -/
def diffPanics (newL oldL patchL : List FileList) : Bool :=
  patchLookupPanics (mapListPairs newL) patchL ||
    classifyPanics (mapListPairs newL) (mapListPairs oldL) (patchedPaths patchL)

/-- The `DiffReport` that `diff` returns when it does not panic. -/
def diffTotal (newL oldL patchL : List FileList) : DiffReport :=
  let newM := mapListPairs newL
  let oldM := mapListPairs oldL
  let patched := patchedPaths patchL
  let patches := buildPatches newM patchL
  let s := classifySet newM oldM patched
  let dirs := classifyDirectories newM oldM patched
  let dels := deletedPathsOf newM oldM
  let rebuilt := rebuildLists newL s
  ⟨rebuilt.1, patches, dirs, deletedEntries oldL dels, patches.length + rebuilt.2.2⟩

/-- `downloader::diff::diff`, with `none` for a panic. -/
def diff (newL oldL patchL : List FileList) : Option DiffReport :=
  if diffPanics newL oldL patchL then none else some (diffTotal newL oldL patchL)

/-- The lowercased paths of the entries across the report's download
lists. -/
def downloadPaths (r : DiffReport) : List String :=
  r.download.foldl (fun acc l => acc ++ l.files.map (fun e => lowerStr e.path)) []

/-! ## Manifests and depot selection (src/content_system/types/mod.rs)

Depot file lists arrive over HTTP; the fetches are oracle parameters
keyed by the varying parts of the request URL. -/

/-- `v2::ManifestDepot`. -/
structure V2ManifestDepot where
  size : Int
  compressed_size : Int
  is_gog_depot : Bool
  languages : List String
  manifest : String
  product_id : String
deriving DecidableEq

/-- `v1::ManifestDepot`. -/
inductive V1ManifestDepot where
  | files : (languages : List String) → (size : String) → (game_ids : List String) →
      (systems : List String) → (manifest : String) → V1ManifestDepot
  | redist : (redist : String) → (size : Option String) → (target_dir : Option String) →
      V1ManifestDepot
deriving DecidableEq

/-- `v1::ManifestProduct` (the fields the verified operations read). -/
structure V1ManifestProduct where
  timestamp : Nat
  depots : List V1ManifestDepot
  install_directory : String
  root_game_id : String
deriving DecidableEq

/-- `v1::Manifest`. -/
structure V1Manifest where
  product : V1ManifestProduct
deriving DecidableEq

/-- `v2::Manifest` (the fields the verified operations read). -/
structure V2Manifest where
  base_product_id : String
  dependencies : List String
  depots : List V2ManifestDepot
  install_directory : String
deriving DecidableEq

/-- `types::Manifest`. -/
inductive Manifest where
  | v1 : V1Manifest → Manifest
  | v2 : V2Manifest → Manifest
deriving DecidableEq

/-- `Manifest::product_id`. -/
def Manifest.productId : Manifest → String
  | .v1 m => m.product.root_game_id
  | .v2 m => m.base_product_id

/-- The V1 arm of `Manifest::get_depots`: `Redist` depots are skipped;
a `Files` depot is skipped unless its `gameIDs` meet the root game id or
a requested DLC, and unless its languages contain `"*"` or the requested
language; a kept depot's file list is fetched from a URL built from its
first game id, the product timestamp and the depot manifest hash. -/
def getDepotsV1 (m : V1Manifest) (language : String) (dlcs : List String)
    (fetch : String → Nat → String → List V1.DepotEntry) : List FileList :=
  m.product.depots.foldl (fun depots depot =>
    match depot with
    | .redist _ _ _ => depots
    | .files languages _ game_ids _ manifest =>
      if !(game_ids.contains m.product.root_game_id ||
           dlcs.any (fun dlc => game_ids.any (fun id => id == dlc))) then depots
      else if !(languages.contains "*" || languages.contains language) then depots
      else
        match game_ids with
        | [] => depots
        | g :: _ =>
          depots ++ [⟨g, (fetch g m.product.timestamp manifest).map .v1, none, false⟩]) []

/-- The V2 arm of `Manifest::get_depots`: a depot is skipped unless its
product id is the base product or a requested DLC, and unless its
languages contain `"*"` or the requested language; a kept depot's
zlib-compressed file list is fetched by its manifest hash and carries the
parsed SFC. -/
def getDepotsV2 (m : V2Manifest) (language : String) (dlcs : List String)
    (fetch : String → List V2.DepotEntry × Option SmallFilesContainer) : List FileList :=
  m.depots.foldl (fun depots depot =>
    if !(depot.product_id == m.base_product_id ||
         dlcs.any (fun dlc => depot.product_id == dlc)) then depots
    else if !(depot.languages.contains "*" || depot.languages.contains language) then depots
    else
      let fetched := fetch depot.manifest
      depots ++ [⟨depot.product_id, fetched.1.map .v2, fetched.2, false⟩]) []

/-- `Manifest::get_depots`. -/
def Manifest.getDepots (m : Manifest) (language : String) (dlcs : List String)
    (fetch1 : String → Nat → String → List V1.DepotEntry)
    (fetch2 : String → List V2.DepotEntry × Option SmallFilesContainer) : List FileList :=
  match m with
  | .v1 mv1 => getDepotsV1 mv1 language dlcs fetch1
  | .v2 mv2 => getDepotsV2 mv2 language dlcs fetch2

/-! ## Patch index (src/content_system/patches.rs) -/

/-- `patches::PatchIndex`. -/
structure PatchIndexResp where
  id : String
  from_build_id : String
  to_build_id : String
  link : String
deriving DecidableEq

/-- `patches::PatchDepots` (the `products` list is unused by the checked
properties). -/
structure PatchDepots where
  base_product_id : String
  client_id : String
  client_secret : String
  algorithm : String
  build_id_source : String
  build_id_target : String
  depots : List V2ManifestDepot
deriving DecidableEq

/-- `patches::get_patches`.  `none` is the source's `Ok(None)` ("no
patches").  `indexResp = none` models the 404 on the patch index;
`depotsResp = none` models an undecodable (empty) patch depot list;
`fetchPatchDepot` is the per-depot zlib file-list fetch keyed by the
depot manifest hash. -/
def getPatches (manifest : Option Manifest) (build_id : Option String)
    (old_manifest : Option Manifest) (old_build_id : Option String)
    (dlcs : List String) (new_language old_language : String)
    (indexResp : Option PatchIndexResp) (depotsResp : Option PatchDepots)
    (fetchPatchDepot : String → List V2.DepotEntry) : Option (List FileList) :=
  if manifest.isNone || build_id.isNone then none
  else if old_manifest.isNone || old_build_id.isNone then none
  else
    match manifest with
    | some (.v1 _) => none
    | _ =>
      match old_manifest with
      | some (.v1 _) => none
      | _ =>
        let product_id := match manifest with
          | some m => m.productId
          | none => ""
        match indexResp with
        | none => none
        | some _ =>
          match depotsResp with
          | none => none
          | some depots =>
            if depots.algorithm ≠ "xdelta3" then none
            else
              let wanted := depots.depots.filter (fun d =>
                (d.product_id == product_id || dlcs.contains d.product_id) &&
                (d.languages.any (fun l => l == "*") ||
                  (d.languages.contains old_language && d.languages.contains new_language)))
              some (wanted.map (fun d =>
                ⟨d.product_id, (fetchPatchDepot d.manifest).map .v2, none, false⟩))

/-! ## Downloader paths, file status (src/content_system/downloader/mod.rs) -/

/-- The `Downloader` fields that `get_file_root` reads: whether an old
manifest is present, whether the new manifest is `Some(Manifest::V2(_))`,
and the three roots computed by the builder. -/
structure DownloaderCfg where
  has_old_manifest : Bool
  manifest_is_v2 : Bool
  install_path : String
  support_path : String
  tmp_path : String
deriving DecidableEq

/-- `Downloader::get_file_root`. -/
def getFileRoot (d : DownloaderCfg) (is_support : Bool) (product_id : String)
    (final_destination : Bool) : String :=
  if d.has_old_manifest && !final_destination then d.tmp_path
  else if is_support then
    (if d.manifest_is_v2 then pathJoin d.support_path product_id else d.support_path)
  else d.install_path

/-- The filesystem as the status classifier observes it: which paths
exist, and for a `.state` sidecar, the decoded chunk bitmap (`none` for a
file that does not decode). -/
structure Fs where
  present : String → Bool
  stateChunks : String → Option (List Bool)

/-- `progress::DownloadFileStatus`. -/
inductive DownloadFileStatus where
  | notInitialized
  | allocated
  | partialChunks : List Bool → DownloadFileStatus
  | patchDownloaded
  | done
deriving DecidableEq

/-- The tail of `Downloader::get_file_status` after the final-path and
`.state` checks: `.download` → Allocated, `.diff` → PatchDownloaded,
`.diff.download` → Allocated, else NotInitialized. -/
def getFileStatusTail (fs : Fs) (path : String) : DownloadFileStatus :=
  if fs.present (path ++ ".download") then .allocated
  else if fs.present (path ++ ".diff") then .patchDownloaded
  else if fs.present (path ++ ".diff.download") then .allocated
  else .notInitialized

/-- `Downloader::get_file_status`: the final path wins; an existing,
decodable `.state` sidecar gives `Partial`; an existing but undecodable
one falls through to the sidecar checks. -/
def getFileStatus (fs : Fs) (path : String) : DownloadFileStatus :=
  if fs.present path then .done
  else if fs.present (path ++ ".state") then
    match fs.stateChunks (path ++ ".state") with
    | some chunks => .partialChunks chunks
    | none => getFileStatusTail fs path
  else getFileStatusTail fs path

/-! ## Required space (src/content_system/downloader/mod.rs lines 397–437) -/

/-- Whether some download list's SFC has an empty chunk list, on which
`sfc.chunks().first().unwrap()` in `get_required_space` panics. -/
def reportSfcPanics (r : DiffReport) : Bool :=
  r.download.any (fun l =>
    match l.sfc with
    | some sfc => sfc.chunks.isEmpty
    | none => false)

/-- The `get_required_space` walk over one download list: the SFC chunk
counts its size when its blob path classifies `NotInitialized`; every
non-directory entry counts its size when its path classifies
`NotInitialized`. -/
def requiredSpaceList (d : DownloaderCfg) (fs : Fs) (acc : Int) (l : FileList) : Int :=
  let acc := match l.sfc with
    | some sfc =>
      match sfc.chunks with
      | [] => acc
      | c :: _ =>
        let file_root := getFileRoot d false l.product_id false
        if getFileStatus fs (pathJoin file_root c.md5) = .notInitialized
        then acc + c.size else acc
    | none => acc
  l.files.foldl (fun acc e =>
    if e.isDir then acc
    else
      let file_root := getFileRoot d e.isSupport l.product_id false
      if getFileStatus fs (pathJoin file_root e.path) = .notInitialized
      then acc + e.size else acc) acc

/-- The `get_required_space` walk over one patch: `diff.size() +
destination_file.size()` when the diff's destination path classifies
`NotInitialized`. -/
def requiredSpacePatch (d : DownloaderCfg) (fs : Fs) (acc : Int) (p : Patch) : Int :=
  let file_root := getFileRoot d false p.product_id false
  if getFileStatus fs (pathJoin file_root p.diff.path) = .notInitialized
  then acc + p.diff.size + p.destination_file.size else acc

/-- `Downloader::get_required_space`: `none` models a panic — the
`take().unwrap()` of an absent report, or an SFC with no chunk. -/
def getRequiredSpace (d : DownloaderCfg) (fs : Fs) (report : Option DiffReport) : Option Int :=
  match report with
  | none => none
  | some r =>
    if reportSfcPanics r then none
    else some (r.patches.foldl (requiredSpacePatch d fs)
      (r.download.foldl (requiredSpaceList d fs) 0))

/-! ## download(): the NotReady gate, allocation and task spawning
(src/content_system/downloader/mod.rs lines 515–1025) -/

/-- `errors::Error` (the kinds the verified paths produce). -/
inductive WarpError where
  | notReady : String → WarpError
  | cancelled : WarpError
  | ioError : String → WarpError
deriving DecidableEq

/-- The entry of `Downloader::download`: with no stored report it returns
the `NotReady` error before doing anything else; with a stored report the
rest of the function runs on it. -/
def downloadEntry {α : Type} (report : Option DiffReport)
    (rest : DiffReport → Except WarpError α) : Except WarpError α :=
  match report with
  | none => .error (.notReady "download not ready, did you forget Downloader::prepare()?")
  | some r => rest r

/-- The filesystem effects of the allocation loop. -/
inductive AllocAction where
  | createDir : String → AllocAction
  | createEmptyFile : String → AllocAction
  | allocateFile : String → Int → AllocAction
  | allocateDiff : String → Int → AllocAction
  | allocatePatched : String → Int → AllocAction
deriving DecidableEq

/-- The state the allocation loop threads: emitted filesystem actions,
`ready_files`, `ready_patches`, and the recorded symlinks. -/
structure AllocState where
  actions : List AllocAction
  ready_files : List String
  ready_patches : List String
  symlinks : List (String × String)
deriving DecidableEq

/-- The allocation step for one depot entry (lines 624–717): directories
are created; a zero-size file is created empty and marked ready and a
zero-size link is recorded; otherwise NotInitialized/Allocated entries
get their `.download` sidecar preallocated, Partial entries only update
progress, and Done/PatchDownloaded entries are marked ready. -/
def allocateEntry (d : DownloaderCfg) (fs : Fs) (product_id : String)
    (st : AllocState) (e : DepotEntry) : AllocState :=
  let entry_path := e.path
  let entry_root := getFileRoot d e.isSupport product_id false
  let file_path := pathJoin entry_root entry_path
  if e.isDir then { st with actions := st.actions ++ [.createDir file_path] }
  else
    let file_size := e.size
    if file_size = 0 then
      match e with
      | .v1 (.file _) | .v2 (.file _) =>
        { st with actions := st.actions ++ [.createEmptyFile file_path],
                  ready_files := st.ready_files ++ [entry_path] }
      | .v2 (.link link) =>
        let link_root := getFileRoot d false product_id true
        { st with symlinks := st.symlinks ++ [(pathJoin link_root link.path, link.target)] }
      | _ => st
    else
      match getFileStatus fs file_path with
      | .notInitialized | .allocated =>
        { st with actions := st.actions ++ [.allocateFile (file_path ++ ".download") file_size] }
      | .partialChunks _ => st
      | _ => { st with ready_files := st.ready_files ++ [entry_path] }

/-- The allocation step for a list's SFC blob (lines 594–623):
NotInitialized/Allocated preallocates the blob's `.download` sidecar,
anything else marks the blob (keyed by its chunk md5) ready.  An SFC with
no chunks panics in the source; the theorems over this phase assume every
SFC is nonempty. -/
def allocateSfc (d : DownloaderCfg) (fs : Fs) (st : AllocState) (l : FileList) : AllocState :=
  match l.sfc with
  | none => st
  | some sfc =>
    match sfc.chunks with
    | [] => st
    | c :: _ =>
      let install_root := getFileRoot d false l.product_id false
      let file_path := pathJoin install_root c.md5
      match getFileStatus fs file_path with
      | .notInitialized | .allocated =>
        { st with actions := st.actions ++ [.allocateFile (file_path ++ ".download") c.size] }
      | _ => { st with ready_files := st.ready_files ++ [c.md5] }

/-- The allocation step for one patch (lines 759–832). -/
def allocatePatch (d : DownloaderCfg) (fs : Fs) (st : AllocState) (p : Patch) : AllocState :=
  let entry_path := p.diff.path
  let entry_root := getFileRoot d p.diff.isSupport p.product_id false
  let file_path := pathJoin entry_root entry_path
  match getFileStatus fs file_path with
  | .notInitialized | .allocated =>
    { st with actions := st.actions ++
        [.allocateDiff (file_path ++ ".diff.download") p.diff.size,
         .allocatePatched (file_path ++ ".patched") p.destination_file.size] }
  | .done => { st with ready_files := st.ready_files ++ [entry_path] }
  | .patchDownloaded => { st with ready_patches := st.ready_patches ++ [entry_path] }
  | .partialChunks _ => st

/-- The whole allocation phase: per list, the SFC then its entries; then
every patch. -/
def allocatePhase (d : DownloaderCfg) (fs : Fs) (r : DiffReport) : AllocState :=
  let st := r.download.foldl
    (fun st l => l.files.foldl (allocateEntry d fs l.product_id) (allocateSfc d fs st l))
    ⟨[], [], [], []⟩
  r.patches.foldl (allocatePatch d fs) st

/-- The worker tasks `download` spawns (lines 877–1025). -/
inductive WorkerTask where
  | sfcTask : String → String → WorkerTask
  | v2Task : String → String → V2.DepotEntry → WorkerTask
  | v1Task : String → String → V1.DepotEntry → WorkerTask
  | diffTask : String → String → V2.DepotEntry → WorkerTask
deriving DecidableEq

/-- The spawn loop for one download list: the SFC blob unless its md5 is
ready; every non-ready, non-directory file, except V2 files contained in
the SFC. -/
def spawnList (ready_files : List String) (l : FileList) : List WorkerTask :=
  (match l.sfc with
   | some sfc =>
     match sfc.chunks with
     | c :: _ => if ready_files.contains c.md5 then [] else [.sfcTask l.product_id c.md5]
     | [] => []
   | none => []) ++
  l.files.foldl (fun acc file =>
    let file_path := file.path
    if ready_files.contains file_path || file.isDir then acc
    else
      match file with
      | .v2 v2_entry =>
        match v2_entry with
        | .file f =>
          if f.sfc_ref.isSome then acc
          else acc ++ [.v2Task l.product_id file_path (.file f)]
        | _ => acc ++ [.v2Task l.product_id file_path v2_entry]
      | .v1 v1_entry => acc ++ [.v1Task l.product_id file_path v1_entry]) []

/-- The whole spawn phase: the download lists, then a `.diff` fetch task
for every patch not already downloaded. -/
def spawnPhase (r : DiffReport) (ready_files ready_patches : List String) : List WorkerTask :=
  r.download.foldl (fun acc l => acc ++ spawnList ready_files l) [] ++
  r.patches.foldl (fun acc p =>
    if ready_patches.contains p.diff.path then acc
    else acc ++ [.diffTask p.product_id (p.diff.path ++ ".diff") p.diff]) []

/-! ## V2 worker chunk scheduling (src/content_system/downloader/worker.rs) -/

/-- `progress::DownloadStateHeader`. -/
structure DownloadStateHeader where
  version : Nat
  number_of_chunks : Nat
deriving DecidableEq

/-- `progress::FileDownloadState`. -/
structure FileDownloadState where
  header : DownloadStateHeader
  chunks : List Bool
deriving DecidableEq

/-- `FileDownloadState::default()`: version 1, no chunks. -/
def defaultFileDownloadState : FileDownloadState := ⟨⟨1, 0⟩, []⟩

/-- `Vec::resize(n, false)`: truncate or pad with `false` to length `n`. -/
def resizeFalse (l : List Bool) (n : Nat) : List Bool :=
  l.take n ++ List.replicate (n - l.length) false

/-- A scheduled chunk fetch of the V2 worker: the assembled galaxy-path
URL it `GET`s, the capacity of the buffer the body is zlib-decompressed
into (the chunk's uncompressed size), and the byte offset in the file the
task reports back with the buffer and its chunk index. -/
structure ChunkTask where
  index : Nat
  url : String
  buffer_capacity : Int
  offset : Int
deriving DecidableEq

/-- The chunk state after `worker::v2` loads and resizes it (lines
130–132): the loaded state or the default, `number_of_chunks` set to the
chunk count and the bitmap resized to it padded with `false`. -/
def v2WorkerState (loaded : Option FileDownloadState) (chunks : List Chunk) : FileDownloadState :=
  let st := loaded.getD defaultFileDownloadState
  ⟨⟨st.header.version, chunks.length⟩, resizeFalse st.chunks chunks.length⟩

/-- The scheduling loop of `worker::v2` (lines 134–176): walk the chunks
accumulating the byte offset; a chunk whose bit is set is skipped, any
other chunk schedules a fetch task. -/
def v2WorkerTasksGo (endpoint : Endpoint) (state : List Bool) :
    List Chunk → Nat → Int → List ChunkTask
  | [], _, _ => []
  | chunk :: rest, index, offset =>
    let chunk_offset := offset
    let rest_tasks := v2WorkerTasksGo endpoint state rest (index + 1) (offset + chunk.size)
    if state.getD index false then rest_tasks
    else
      ⟨index, assembleUrl endpoint (hashToGalaxyPath chunk.compressed_md5),
        chunk.size, chunk_offset⟩ :: rest_tasks

/-- The tasks `worker::v2` schedules for a file's chunks, given the
loaded sidecar state. -/
def v2WorkerTasks (endpoint : Endpoint) (chunks : List Chunk)
    (loaded : Option FileDownloadState) : List ChunkTask :=
  v2WorkerTasksGo endpoint (v2WorkerState loaded chunks).chunks chunks 0 0

/-! ## Generic helper lemmas -/

/-- A left fold that appends `f x` for every element equals the initial
accumulator followed by the flattened images. -/
theorem foldl_append_init {α β : Type} (f : β → List α) :
    ∀ (l : List β) (init : List α),
      l.foldl (fun acc x => acc ++ f x) init = init ++ (l.map f).flatten
  | [], init => by simp
  | x :: xs, init => by
    simp only [List.foldl_cons, List.map_cons, List.flatten_cons, foldl_append_init f xs]
    simp [List.append_assoc]

/-- Flattening singleton images is mapping. -/
theorem flatten_map_singleton {α β : Type} (f : α → β) :
    ∀ (l : List α), (l.map (fun x => [f x])).flatten = l.map f
  | [] => rfl
  | x :: xs => by simp [flatten_map_singleton f xs]

/-- A left fold appending a singleton per element is the initial
accumulator followed by the mapped list. -/
theorem foldl_append_singleton {α β : Type} (f : β → α) (l : List β) (init : List α) :
    l.foldl (fun acc x => acc ++ [f x]) init = init ++ l.map f := by
  rw [foldl_append_init (fun x => [f x]) l init, flatten_map_singleton]

/-- `mapListPairs` flattens every list's entries keyed by lowercased
path. -/
theorem mapListPairs_eq (lists : List FileList) :
    mapListPairs lists =
      (lists.map (fun l => l.files.map (fun e => (lowerStr e.path, e)))).flatten := by
  unfold mapListPairs
  rw [List.foldl_ext _
      (fun m l => m ++ l.files.map (fun e => (lowerStr e.path, e))) []
      (fun m l _ =>
        foldl_append_singleton (fun e : DepotEntry => (lowerStr e.path, e)) l.files m)]
  simpa using
    foldl_append_init (fun l : FileList => l.files.map (fun e => (lowerStr e.path, e))) lists []

/-- Membership in `dedupFirstGo`. -/
theorem mem_dedupFirstGo (x : String) :
    ∀ (l seen : List String), x ∈ dedupFirstGo l seen ↔ x ∈ l ∧ x ∉ seen
  | [], seen => by simp [dedupFirstGo]
  | y :: ys, seen => by
    unfold dedupFirstGo
    by_cases hy : y ∈ seen
    · rw [if_pos hy, mem_dedupFirstGo x ys seen]
      simp only [List.mem_cons]
      constructor
      · rintro ⟨h1, h2⟩; exact ⟨Or.inr h1, h2⟩
      · rintro ⟨h1 | h1, h2⟩
        · subst h1; exact absurd hy h2
        · exact ⟨h1, h2⟩
    · rw [if_neg hy]
      simp only [List.mem_cons, mem_dedupFirstGo x ys (y :: seen)]
      constructor
      · rintro (h | ⟨h1, h2⟩)
        · subst h; exact ⟨Or.inl rfl, hy⟩
        · exact ⟨Or.inr h1, fun hx => h2 (Or.inr hx)⟩
      · rintro ⟨h1 | h1, h2⟩
        · exact Or.inl h1
        · by_cases hxy : x = y
          · exact Or.inl hxy
          · exact Or.inr ⟨h1, fun hx => hx.elim hxy h2⟩

/-- `dedupFirstGo` output avoids `seen` and has no duplicates. -/
theorem nodup_dedupFirstGo :
    ∀ (l seen : List String), (dedupFirstGo l seen).Nodup
  | [], _ => by simp [dedupFirstGo]
  | y :: ys, seen => by
    unfold dedupFirstGo
    by_cases hy : y ∈ seen
    · simpa [if_pos hy] using nodup_dedupFirstGo ys seen
    · rw [if_neg hy]
      refine List.nodup_cons.mpr ⟨?_, nodup_dedupFirstGo ys (y :: seen)⟩
      intro hmem
      exact ((mem_dedupFirstGo y ys (y :: seen)).mp hmem).2 (List.mem_cons_self y seen)

/-- Membership in `dedupFirst`. -/
theorem mem_dedupFirst (x : String) (l : List String) :
    x ∈ dedupFirst l ↔ x ∈ l := by
  unfold dedupFirst
  rw [mem_dedupFirstGo]
  simp

/-- `dedupFirst` has no duplicates. -/
theorem nodup_dedupFirst (l : List String) : (dedupFirst l).Nodup :=
  nodup_dedupFirstGo l []

/-- Membership in the key set of an embedded map. -/
theorem mem_mapKeys (x : String) (m : List (String × DepotEntry)) :
    x ∈ mapKeys m ↔ x ∈ m.map Prod.fst := by
  unfold mapKeys
  exact mem_dedupFirst x _

/-- The key set has no duplicates. -/
theorem nodup_mapKeys (m : List (String × DepotEntry)) : (mapKeys m).Nodup :=
  nodup_dedupFirst _

/-- `mapLookup` succeeds exactly on the keys. -/
theorem mapLookup_isSome (m : List (String × DepotEntry)) (k : String) :
    (mapLookup m k).isSome = true ↔ k ∈ m.map Prod.fst := by
  unfold mapLookup
  rw [Option.isSome_map']
  rw [List.find?_isSome]
  constructor
  · rintro ⟨kv, hmem, hp⟩
    exact List.mem_map.mpr ⟨kv, List.mem_reverse.mp hmem, by simpa using hp⟩
  · intro hmem
    rcases List.mem_map.mp hmem with ⟨kv, hkv, rfl⟩
    exact ⟨kv, List.mem_reverse.mpr hkv, by simp⟩

/-! ## C3: V2 worker chunk scheduling -/

/-- A placeholder chunk for total indexing. -/
def defaultChunk : Chunk := ⟨"", "", 0, 0⟩

/-- Shifting the accumulator out of the chunk-size fold. -/
theorem chunksSize_go (l : List Chunk) : ∀ (a : Int),
    l.foldl (fun acc ch => acc + ch.size) a = a + chunksSize l := by
  induction l with
  | nil => intro a; simp [chunksSize]
  | cons c cs ih =>
    intro a
    have h1 := ih (a + c.size)
    have h2 := ih (0 + c.size)
    have hc : chunksSize (c :: cs) = cs.foldl (fun acc ch => acc + ch.size) (0 + c.size) := rfl
    simp only [List.foldl_cons]
    rw [h1, hc, h2]
    omega

/-- `chunksSize` unfolds one chunk. -/
theorem chunksSize_cons (c : Chunk) (l : List Chunk) :
    chunksSize (c :: l) = c.size + chunksSize l := by
  have hc : chunksSize (c :: l) = l.foldl (fun acc ch => acc + ch.size) (0 + c.size) := rfl
  rw [hc, chunksSize_go l (0 + c.size)]
  omega

/-- The task the V2 worker schedules for chunk `i`: the galaxy-path URL
of the chunk's compressed md5, a decompression buffer of the chunk's
uncompressed size, and the byte offset accumulated over the preceding
chunks. -/
def chunkTaskFor (endpoint : Endpoint) (chunks : List Chunk) (i : Nat) : ChunkTask :=
  ⟨i,
   assembleUrl endpoint (hashToGalaxyPath (chunks.getD i defaultChunk).compressed_md5),
   (chunks.getD i defaultChunk).size,
   chunksSize (chunks.take i)⟩

/-- The scheduling loop in closed form: exactly the indices whose bit is
unset, each with its canonical task. -/
theorem v2WorkerTasksGo_spec (ep : Endpoint) (st : List Bool) :
    ∀ (cs : List Chunk) (i0 : Nat) (off : Int),
      v2WorkerTasksGo ep st cs i0 off =
        ((List.range cs.length).filter (fun k => !(st.getD (i0 + k) false))).map
          (fun k =>
            ⟨i0 + k,
             assembleUrl ep (hashToGalaxyPath (cs.getD k defaultChunk).compressed_md5),
             (cs.getD k defaultChunk).size,
             off + chunksSize (cs.take k)⟩)
  | [], i0, off => by simp [v2WorkerTasksGo]
  | c :: rest, i0, off => by
    simp only [v2WorkerTasksGo]
    rw [v2WorkerTasksGo_spec ep st rest (i0 + 1) (off + c.size)]
    rw [List.length_cons, List.range_succ_eq_map, List.filter_cons]
    have hpred : ∀ k ∈ List.range rest.length,
        ((fun k => !st.getD (i0 + k) false) ∘ Nat.succ) k =
          (fun k => !st.getD (i0 + 1 + k) false) k := by
      intro k _
      have h : i0 + 1 + k = i0 + (k + 1) := by omega
      simp [Function.comp, Nat.succ_eq_add_one, h]
    have hfun : ∀ k ∈ (List.range rest.length).filter (fun k => !st.getD (i0 + 1 + k) false),
        ((fun k =>
            (⟨i0 + k,
              assembleUrl ep (hashToGalaxyPath ((c :: rest).getD k defaultChunk).compressed_md5),
              ((c :: rest).getD k defaultChunk).size,
              off + chunksSize ((c :: rest).take k)⟩ : ChunkTask)) ∘ Nat.succ) k =
          (fun k =>
            (⟨i0 + 1 + k,
              assembleUrl ep (hashToGalaxyPath (rest.getD k defaultChunk).compressed_md5),
              (rest.getD k defaultChunk).size,
              off + c.size + chunksSize (rest.take k)⟩ : ChunkTask)) k := by
      intro k _
      simp only [Function.comp, Nat.succ_eq_add_one, List.getD_cons_succ,
        List.take_succ_cons, chunksSize_cons, ChunkTask.mk.injEq]
      exact ⟨by omega, trivial, trivial, by omega⟩
    by_cases hbit : st.getD i0 false
    · simp only [show i0 + 0 = i0 from rfl, hbit, Bool.not_true, if_true,
        Bool.false_eq_true, if_false]
      conv_rhs => rw [List.filter_map, List.map_map]
      rw [List.filter_congr hpred]
      exact (List.map_congr_left hfun).symm
    · simp only [show i0 + 0 = i0 from rfl, hbit, Bool.not_false, if_true,
        Bool.false_eq_true, if_false, List.map_cons]
      congr 1
      · simp [chunksSize]
      · conv_rhs => rw [List.filter_map, List.map_map]
        rw [List.filter_congr hpred]
        exact (List.map_congr_left hfun).symm

/-- C3: for every V2 file entry the worker processes, the chunk bitmap is
resized to exactly `len(chunks)` padded with `false`, and a chunk fetch —
galaxy-path URL of the chunk's compressed md5, a decompression buffer of
the chunk's uncompressed size, reporting back buffer, chunk index and
byte offset — is scheduled for exactly the chunks whose bit is unset:
the task list is the bitmap-false indices mapped to their canonical
tasks, so a chunk whose bit is already `true` is never fetched again. -/
theorem c3_v2_worker_schedule (ep : Endpoint) (chunks : List Chunk)
    (loaded : Option FileDownloadState) :
    (v2WorkerState loaded chunks).chunks.length = chunks.length ∧
    (v2WorkerState loaded chunks).chunks =
      (loaded.getD defaultFileDownloadState).chunks.take chunks.length ++
        List.replicate (chunks.length - (loaded.getD defaultFileDownloadState).chunks.length)
          false ∧
    v2WorkerTasks ep chunks loaded =
      ((List.range chunks.length).filter
          (fun k => !((v2WorkerState loaded chunks).chunks.getD k false))).map
        (chunkTaskFor ep chunks) := by
  refine ⟨?_, rfl, ?_⟩
  · simp only [v2WorkerState, resizeFalse, List.length_append, List.length_take,
      List.length_replicate]
    omega
  · unfold v2WorkerTasks
    rw [v2WorkerTasksGo_spec ep (v2WorkerState loaded chunks).chunks chunks 0 0]
    simp only [Nat.zero_add, zero_add]
    refine List.map_congr_left ?_
    intro k _
    simp [chunkTaskFor]

/-! ## C5: depot selection -/

/-- The selection predicate of C5 for a V1 manifest depot: some of its
game ids is the root game id or a requested DLC id, and its language set
contains `"*"` or the requested language (`Redist` depots carry no
product and are never selected). -/
def v1DepotWanted (root language : String) (dlcs : List String) : V1ManifestDepot → Bool
  | .files languages _ game_ids _ _ =>
    (game_ids.contains root || dlcs.any (fun dlc => game_ids.any (fun id => id == dlc))) &&
    (languages.contains "*" || languages.contains language)
  | .redist _ _ _ => false

/-- The selection predicate of C5 for a V2 manifest depot: its product id
is the base product or a requested DLC id, and its language set contains
`"*"` or the requested language. -/
def v2DepotWanted (base language : String) (dlcs : List String) (d : V2ManifestDepot) : Bool :=
  (d.product_id == base || dlcs.any (fun dlc => d.product_id == dlc)) &&
  (d.languages.contains "*" || d.languages.contains language)

/-- The `FileList` a selected V1 depot contributes. -/
def v1DepotFileList (m : V1Manifest) (fetch : String → Nat → String → List V1.DepotEntry) :
    V1ManifestDepot → FileList
  | .files _ _ game_ids _ manifest =>
    ⟨game_ids.headD "", (fetch (game_ids.headD "") m.product.timestamp manifest).map .v1,
     none, false⟩
  | .redist _ _ _ => ⟨"", [], none, false⟩

/-- The `FileList` a selected V2 depot contributes. -/
def v2DepotFileList (fetch : String → List V2.DepotEntry × Option SmallFilesContainer)
    (d : V2ManifestDepot) : FileList :=
  ⟨d.product_id, (fetch d.manifest).1.map .v2, (fetch d.manifest).2, false⟩

/-- A fold whose step appends `[f d]` exactly when `w d` holds is the
filtered map. -/
theorem foldl_filter_map {α β : Type} (w : β → Bool) (f : β → α)
    (step : List α → β → List α)
    (hstep : ∀ acc d, step acc d = if w d then acc ++ [f d] else acc) :
    ∀ (l : List β) (acc : List α), l.foldl step acc = acc ++ (l.filter w).map f
  | [], acc => by simp
  | d :: ds, acc => by
    rw [List.foldl_cons, hstep, List.filter_cons]
    by_cases hw : w d
    · simp only [hw, if_true]
      rw [foldl_filter_map w f step hstep ds (acc ++ [f d])]
      simp [List.append_assoc]
    · simp only [hw, Bool.false_eq_true, if_false]
      exact foldl_filter_map w f step hstep ds acc

/-- The V1 fold in closed form. -/
theorem getDepotsV1_eq (m : V1Manifest) (language : String) (dlcs : List String)
    (fetch : String → Nat → String → List V1.DepotEntry) :
    getDepotsV1 m language dlcs fetch =
      (m.product.depots.filter (v1DepotWanted m.product.root_game_id language dlcs)).map
        (v1DepotFileList m fetch) := by
  unfold getDepotsV1
  refine (foldl_filter_map (v1DepotWanted m.product.root_game_id language dlcs)
    (v1DepotFileList m fetch) _ ?_ m.product.depots []).trans (by simp)
  intro acc d
  rcases d with ⟨languages, size, game_ids, systems, manifest⟩ | ⟨r, s, t⟩
  · simp only [v1DepotWanted]
    by_cases h1 : (game_ids.contains m.product.root_game_id ||
        dlcs.any (fun dlc => game_ids.any (fun id => id == dlc))) = true
    · by_cases h2 : (languages.contains "*" || languages.contains language) = true
      · rcases hg : game_ids with _ | ⟨g, gs⟩
        · subst hg
          simp at h1
        · subst hg
          simp only [h1, h2, Bool.not_true, Bool.false_eq_true, if_false, Bool.true_and,
            if_true, v1DepotFileList, List.headD_cons]
      · replace h2 := Bool.eq_false_iff.mpr h2
        simp only [h1, h2, Bool.not_false, if_true, Bool.true_and, Bool.false_eq_true,
          if_false, Bool.and_false, Bool.not_true]
    · replace h1 := Bool.eq_false_iff.mpr h1
      simp only [h1, Bool.not_false, if_true, Bool.false_and, Bool.false_eq_true, if_false]
  · simp [v1DepotWanted]

/-- The V2 fold in closed form. -/
theorem getDepotsV2_eq (m : V2Manifest) (language : String) (dlcs : List String)
    (fetch : String → List V2.DepotEntry × Option SmallFilesContainer) :
    getDepotsV2 m language dlcs fetch =
      (m.depots.filter (v2DepotWanted m.base_product_id language dlcs)).map
        (v2DepotFileList fetch) := by
  unfold getDepotsV2
  refine (foldl_filter_map (v2DepotWanted m.base_product_id language dlcs)
    (v2DepotFileList fetch) _ ?_ m.depots []).trans (by simp)
  intro acc d
  simp only [v2DepotWanted]
  by_cases h1 : (d.product_id == m.base_product_id ||
      dlcs.any (fun dlc => d.product_id == dlc)) = true
  · by_cases h2 : (d.languages.contains "*" || d.languages.contains language) = true
    · simp only [h1, h2, Bool.not_true, Bool.false_eq_true, if_false, Bool.true_and,
        if_true, v2DepotFileList]
    · replace h2 := Bool.eq_false_iff.mpr h2
      simp only [h1, h2, Bool.not_false, if_true, Bool.true_and, Bool.false_eq_true,
        if_false, Bool.and_false, Bool.not_true]
  · replace h1 := Bool.eq_false_iff.mpr h1
    simp only [h1, Bool.not_false, if_true, Bool.false_and, Bool.false_eq_true, if_false]

/-- C5: `get_depots(language, dlcs)` contributes one `FileList` for
exactly the manifest depots whose product ids meet the base product id or
a requested DLC id and whose language set contains `"*"` or the requested
language; a depot failing either condition contributes nothing. -/
theorem c5_get_depots_selection (m : Manifest) (language : String) (dlcs : List String)
    (fetch1 : String → Nat → String → List V1.DepotEntry)
    (fetch2 : String → List V2.DepotEntry × Option SmallFilesContainer) :
    Manifest.getDepots m language dlcs fetch1 fetch2 =
      match m with
      | .v1 mv1 =>
        (mv1.product.depots.filter (v1DepotWanted mv1.product.root_game_id language dlcs)).map
          (v1DepotFileList mv1 fetch1)
      | .v2 mv2 =>
        (mv2.depots.filter (v2DepotWanted mv2.base_product_id language dlcs)).map
          (v2DepotFileList fetch2) := by
  cases m with
  | v1 mv1 => exact getDepotsV1_eq mv1 language dlcs fetch1
  | v2 mv2 => exact getDepotsV2_eq mv2 language dlcs fetch2

/-! ## C4: the patch index -/

/-- C4: `get_patches` returns no patches (`None`) whenever either
manifest is V1, either build id is unknown, the patch index responds 404,
or the fetched depot set's algorithm is not `"xdelta3"`; and every patch
depot of a returned list has a product id equal to the base product id or
contained in the re-used DLC list, and a language set containing `"*"` or
both the old and the new language. -/
theorem c4_get_patches (manifest : Option Manifest) (build_id : Option String)
    (old_manifest : Option Manifest) (old_build_id : Option String)
    (dlcs : List String) (new_language old_language : String)
    (indexResp : Option PatchIndexResp) (depotsResp : Option PatchDepots)
    (fetch : String → List V2.DepotEntry) :
    ((∃ mv, manifest = some (.v1 mv)) ∨ (∃ mv, old_manifest = some (.v1 mv)) ∨
        build_id = none ∨ old_build_id = none ∨ indexResp = none ∨
        (∃ dep, depotsResp = some dep ∧ dep.algorithm ≠ "xdelta3") →
      getPatches manifest build_id old_manifest old_build_id dlcs new_language old_language
        indexResp depotsResp fetch = none) ∧
    (∀ fl ∈ (getPatches manifest build_id old_manifest old_build_id dlcs new_language
        old_language indexResp depotsResp fetch).getD [],
      ∃ dep d, depotsResp = some dep ∧ d ∈ dep.depots ∧ fl.product_id = d.product_id ∧
        (∃ m, manifest = some m ∧ (d.product_id = m.productId ∨ d.product_id ∈ dlcs)) ∧
        ("*" ∈ d.languages ∨
          (old_language ∈ d.languages ∧ new_language ∈ d.languages))) := by
  rcases manifest with _ | m
  · exact ⟨fun _ => rfl, by simp [getPatches]⟩
  rcases m with mv1 | mv2
  · refine ⟨fun _ => ?_, ?_⟩
    · rcases build_id with _ | b
      · rfl
      · rcases old_manifest with _ | om
        · rfl
        · rcases old_build_id with _ | ob <;> rfl
    · rcases build_id with _ | b
      · simp [getPatches]
      · rcases old_manifest with _ | om
        · simp [getPatches]
        · rcases old_build_id with _ | ob
          · simp [getPatches]
          · cases om <;> simp [getPatches]
  rcases build_id with _ | b
  · exact ⟨fun _ => rfl, by simp [getPatches]⟩
  rcases old_manifest with _ | om
  · exact ⟨fun _ => rfl, by simp [getPatches]⟩
  rcases om with omv1 | omv2
  · refine ⟨fun _ => ?_, by rcases old_build_id with _ | ob <;> simp [getPatches]⟩
    rcases old_build_id with _ | ob <;> rfl
  rcases old_build_id with _ | ob
  · exact ⟨fun _ => rfl, by simp [getPatches]⟩
  rcases indexResp with _ | idx
  · exact ⟨fun _ => rfl, by simp [getPatches]⟩
  rcases depotsResp with _ | dep
  · exact ⟨fun _ => rfl, by simp [getPatches]⟩
  by_cases halg : dep.algorithm = "xdelta3"
  · have hval : getPatches (some (Manifest.v2 mv2)) (some b) (some (Manifest.v2 omv2))
        (some ob) dlcs new_language old_language (some idx) (some dep) fetch =
        some ((dep.depots.filter (fun d =>
            (d.product_id == mv2.base_product_id || dlcs.contains d.product_id) &&
            (d.languages.any (fun l => l == "*") ||
              (d.languages.contains old_language && d.languages.contains new_language)))).map
          (fun d => ⟨d.product_id, (fetch d.manifest).map .v2, none, false⟩)) := by
      unfold getPatches
      rw [if_neg (by simp), if_neg (by simp)]
      dsimp only [Manifest.productId]
      rw [if_neg (by simp [halg])]
    refine ⟨fun h => ?_, fun fl hfl => ?_⟩
    · rcases h with ⟨mv, hmv⟩ | ⟨mv, hmv⟩ | hb | hob | hidx | ⟨dep2, hdep2, hne⟩
      · exact absurd hmv (by simp)
      · exact absurd hmv (by simp)
      · exact absurd hb (by simp)
      · exact absurd hob (by simp)
      · exact absurd hidx (by simp)
      · rw [Option.some_inj] at hdep2
        exact absurd (hdep2 ▸ halg) hne
    · rw [hval] at hfl
      simp only [Option.getD_some] at hfl
      rcases List.mem_map.mp hfl with ⟨d, hd, rfl⟩
      rcases List.mem_filter.mp hd with ⟨hmem, hcond⟩
      rw [Bool.and_eq_true, Bool.or_eq_true, Bool.or_eq_true] at hcond
      refine ⟨dep, d, rfl, hmem, rfl, ⟨.v2 mv2, rfl, ?_⟩, ?_⟩
      · rcases hcond.1 with h | h
        · exact Or.inl (by simpa [Manifest.productId] using beq_iff_eq.mp h)
        · exact Or.inr (by simpa using h)
      · rcases hcond.2 with h | h
        · rcases List.any_eq_true.mp h with ⟨l, hl, hstar⟩
          exact Or.inl (beq_iff_eq.mp hstar ▸ hl)
        · rw [Bool.and_eq_true] at h
          exact Or.inr ⟨by simpa using h.1, by simpa using h.2⟩
  · refine ⟨fun _ => ?_, ?_⟩
    · simp [getPatches, halg]
    · simp [getPatches, halg]

/-! ## C2 and C9: required space -/

/-- Shifting the accumulator out of an additive fold. -/
theorem foldl_add_map {α : Type} (g : α → Int) :
    ∀ (l : List α) (a : Int), l.foldl (fun acc x => acc + g x) a = a + (l.map g).sum
  | [], a => by simp
  | x :: xs, a => by
    rw [List.foldl_cons, foldl_add_map g xs (a + g x)]
    simp only [List.map_cons, List.sum_cons]
    omega

/-- Summing a filtered map is summing an if-guarded map. -/
theorem sum_filter_map_ite {α : Type} (p : α → Bool) (f : α → Int) :
    ∀ (l : List α), ((l.filter p).map f).sum = (l.map (fun x => if p x then f x else 0)).sum
  | [] => by simp
  | x :: xs => by
    rw [List.filter_cons]
    by_cases hp : p x
    · simp only [hp, if_true, List.map_cons, List.sum_cons, sum_filter_map_ite p f xs]
    · simp only [hp, Bool.false_eq_true, if_false, List.map_cons, List.sum_cons,
        sum_filter_map_ite p f xs]
      omega

/-- A directory entry has size 0 in both generations. -/
theorem size_of_isDir (e : DepotEntry) (h : e.isDir = true) : e.size = 0 := by
  rcases e with e1 | e2
  · rcases e1 with f | d
    · simp [V1.DepotEntry.isDir, DepotEntry.isDir] at h
    · rfl
  · rcases e2 with f | d | l | df
    · simp [V2.DepotEntry.isDir, DepotEntry.isDir] at h
    · rfl
    · simp [V2.DepotEntry.isDir, DepotEntry.isDir] at h
    · simp [V2.DepotEntry.isDir, DepotEntry.isDir] at h

/-- The claim's Σ for one download list: the SFC chunk's size when its
blob path classifies `NotInitialized`, plus the sizes of the entries
whose path classifies `NotInitialized` (directories have size 0, so
including them changes nothing; entries in any other state — partially
on disk included — contribute nothing). -/
def specListRequiredSpace (d : DownloaderCfg) (fs : Fs) (l : FileList) : Int :=
  (match l.sfc with
   | some sfc =>
     if getFileStatus fs (pathJoin (getFileRoot d false l.product_id false)
         (sfc.chunks.headD defaultChunk).md5) = .notInitialized
     then (sfc.chunks.headD defaultChunk).size else 0
   | none => 0) +
  ((l.files.filter (fun e =>
      decide (getFileStatus fs (pathJoin (getFileRoot d e.isSupport l.product_id false) e.path)
        = .notInitialized))).map DepotEntry.size).sum

/-- The claim's Σ for one patch: `diff.size + destination_file.size` when
the destination path classifies `NotInitialized`. -/
def specPatchRequiredSpace (d : DownloaderCfg) (fs : Fs) (p : Patch) : Int :=
  if getFileStatus fs (pathJoin (getFileRoot d false p.product_id false) p.diff.path)
      = .notInitialized
  then p.diff.size + p.destination_file.size else 0

/-- The total the claim describes. -/
def specRequiredSpace (d : DownloaderCfg) (fs : Fs) (r : DiffReport) : Int :=
  (r.download.map (specListRequiredSpace d fs)).sum +
    (r.patches.map (specPatchRequiredSpace d fs)).sum

/-- The per-list walk equals the per-list Σ. -/
theorem requiredSpaceList_eq (d : DownloaderCfg) (fs : Fs) (l : FileList) (acc : Int)
    (h : (match l.sfc with
          | some sfc => sfc.chunks.isEmpty
          | none => false) = false) :
    requiredSpaceList d fs acc l = acc + specListRequiredSpace d fs l := by
  unfold requiredSpaceList specListRequiredSpace
  have hfiles : ∀ (a : Int),
      l.files.foldl (fun acc e =>
        if e.isDir then acc
        else
          let file_root := getFileRoot d e.isSupport l.product_id false
          if getFileStatus fs (pathJoin file_root e.path) = .notInitialized
          then acc + e.size else acc) a =
      a + ((l.files.filter (fun e =>
          decide (getFileStatus fs
            (pathJoin (getFileRoot d e.isSupport l.product_id false) e.path)
            = .notInitialized))).map DepotEntry.size).sum := by
    intro a
    rw [List.foldl_ext _ (fun acc e =>
        acc + (if decide (getFileStatus fs
            (pathJoin (getFileRoot d e.isSupport l.product_id false) e.path)
            = .notInitialized) then e.size else 0)) a ?_]
    · rw [foldl_add_map, sum_filter_map_ite]
    · intro acc e _
      by_cases hd : e.isDir
      · have hz := size_of_isDir e hd
        simp only [hd, if_true]
        by_cases hst : getFileStatus fs
            (pathJoin (getFileRoot d e.isSupport l.product_id false) e.path)
            = DownloadFileStatus.notInitialized
        · simp [hst, hz]
        · simp [hst]
      · simp only [hd, Bool.false_eq_true, if_false]
        by_cases hst : getFileStatus fs
            (pathJoin (getFileRoot d e.isSupport l.product_id false) e.path)
            = DownloadFileStatus.notInitialized
        · simp [hst]
        · simp [hst]
  rcases hsfc : l.sfc with _ | sfc
  · dsimp only
    rw [hfiles acc]
    omega
  · rw [hsfc] at h
    dsimp only at h ⊢
    rcases hch : sfc.chunks with _ | ⟨c, cs⟩
    · rw [hch] at h
      simp at h
    · dsimp only
      simp only [List.headD_cons]
      by_cases hst : getFileStatus fs
          (pathJoin (getFileRoot d false l.product_id false) c.md5)
          = DownloadFileStatus.notInitialized
      · simp only [hst, if_true]
        rw [hfiles (acc + c.size)]
        omega
      · simp only [hst, if_false]
        rw [hfiles acc]
        omega

/-- The per-patch walk equals the per-patch Σ. -/
theorem requiredSpacePatch_eq (d : DownloaderCfg) (fs : Fs) (p : Patch) (acc : Int) :
    requiredSpacePatch d fs acc p = acc + specPatchRequiredSpace d fs p := by
  unfold requiredSpacePatch specPatchRequiredSpace
  by_cases hst : getFileStatus fs
      (pathJoin (getFileRoot d false p.product_id false) p.diff.path)
      = DownloadFileStatus.notInitialized
  · simp only [hst, if_true]
    omega
  · simp only [hst, if_false]
    omega

/-- C2: with a stored report whose SFCs are well-formed (nonempty chunk
lists — the walk unwraps the first chunk), `get_required_space` returns
the sum of the sizes of the report's download entries (each list's SFC
chunk included) whose on-disk status classifies `NotInitialized`, plus
`diff.size + destination_file.size` for every patch whose destination
path classifies `NotInitialized`; entries in any other state, partial
ones included, contribute nothing. -/
theorem c2_required_space (d : DownloaderCfg) (fs : Fs) (r : DiffReport)
    (h : reportSfcPanics r = false) :
    getRequiredSpace d fs (some r) = some (specRequiredSpace d fs r) := by
  unfold getRequiredSpace
  dsimp only
  rw [if_neg (by simp [h])]
  congr 1
  unfold specRequiredSpace
  have hper := List.any_eq_false.mp h
  have hdl : r.download.foldl (requiredSpaceList d fs) 0 =
      (r.download.map (specListRequiredSpace d fs)).sum := by
    rw [List.foldl_ext _ (fun acc l => acc + specListRequiredSpace d fs l) 0 ?_]
    · rw [foldl_add_map]
      omega
    · intro acc l hl
      exact requiredSpaceList_eq d fs l acc (by simpa using hper l hl)
  rw [List.foldl_ext _ (fun acc p => acc + specPatchRequiredSpace d fs p) _
      (fun acc p _ => requiredSpacePatch_eq d fs p acc)]
  rw [foldl_add_map, hdl]

/-- A downloader configuration and an empty filesystem for the concrete
checks. -/
def cfgW : DownloaderCfg := ⟨false, true, "/games/g", "/games/g/gog-support", "/games/g/!Temp"⟩

/-- A filesystem with no paths present. -/
def fsEmpty : Fs := ⟨fun _ => false, fun _ => none⟩

/-- A one-file report for the concrete checks. -/
def reportW : DiffReport :=
  ⟨[⟨"P", [.v2 (.file ⟨[⟨"cc", "mm", 7, 3⟩], "data.bin", none, none, some "w", []⟩)],
     none, false⟩], [], [], [], 1⟩

/-- Witness for C2 at a concrete report: the walk returns the Σ. -/
theorem c2_required_space_witness :
    getRequiredSpace cfgW fsEmpty (some reportW) = some (specRequiredSpace cfgW fsEmpty reportW) :=
  c2_required_space cfgW fsEmpty reportW (by decide)

/-- A new-entries list whose SFC has an empty chunk list but is retained
by the diff (a file references it through `sfc_ref`). -/
def c9New : List FileList :=
  [⟨"P", [.v2 (.file ⟨[], "a", some ⟨0, 5⟩, none, none, []⟩)], some ⟨[]⟩, false⟩]

/-- Counterexample for C9: `prepare` on these inputs stores a report
(`diff` succeeds), yet `get_required_space` panics at
`sfc.chunks().first().unwrap()` instead of returning `Ok`. -/
theorem c9_empty_sfc_counterexample :
    (diff c9New [] []).isSome = true ∧
    getRequiredSpace cfgW fsEmpty (diff c9New [] []) = none := by decide

/-- C9 (amended): `get_required_space` panics — rather than returning an
error value — when no report is stored, and with a stored report whose
SFCs all have a chunk it returns `Ok` with the computed total. -/
theorem c9_required_space_panic_amended (d : DownloaderCfg) (fs : Fs)
    (o : Option DiffReport) :
    (o = none → getRequiredSpace d fs o = none) ∧
    (∀ r, o = some r → reportSfcPanics r = false →
      getRequiredSpace d fs o =
        some (r.patches.foldl (requiredSpacePatch d fs)
          (r.download.foldl (requiredSpaceList d fs) 0))) := by
  constructor
  · intro h
    subst h
    rfl
  · intro r hr hpanic
    subst hr
    unfold getRequiredSpace
    dsimp only
    rw [if_neg (by simp [hpanic])]

/-- Witness for C9's amended theorem at concrete inputs. -/
theorem c9_required_space_panic_witness :
    getRequiredSpace cfgW fsEmpty (some reportW) =
      some (reportW.patches.foldl (requiredSpacePatch cfgW fsEmpty)
        (reportW.download.foldl (requiredSpaceList cfgW fsEmpty) 0)) :=
  (c9_required_space_panic_amended cfgW fsEmpty (some reportW)).2 reportW rfl (by decide)

/-! ## C1: membership in the diff's download lists -/

/-- Erasing keys along a fold over a duplicate-free set: membership
survives exactly when no processed key removes it. -/
theorem mem_foldl_erase (f : String → Bool) :
    ∀ (l s : List String), s.Nodup → ∀ (q : String),
      (q ∈ l.foldl (fun s p => if f p then s.erase p else s) s ↔
        q ∈ s ∧ ¬(q ∈ l ∧ f q = true))
  | [], s, hs, q => by simp
  | p :: l, s, hs, q => by
    rw [List.foldl_cons]
    by_cases hf : f p
    · rw [if_pos hf, mem_foldl_erase f l (s.erase p) (hs.erase p) q]
      constructor
      · rintro ⟨h1, h2⟩
        have hq := (List.Nodup.mem_erase_iff hs).mp h1
        refine ⟨hq.2, ?_⟩
        rintro ⟨hql, hfq⟩
        rcases List.mem_cons.mp hql with rfl | hql2
        · exact hq.1 rfl
        · exact h2 ⟨hql2, hfq⟩
      · rintro ⟨h1, h2⟩
        have hqp : q ≠ p := by
          rintro rfl
          exact h2 ⟨List.mem_cons_self q l, hf⟩
        refine ⟨(List.Nodup.mem_erase_iff hs).mpr ⟨hqp, h1⟩, ?_⟩
        rintro ⟨hql, hfq⟩
        exact h2 ⟨List.mem_cons_of_mem p hql, hfq⟩
    · rw [if_neg hf, mem_foldl_erase f l s hs q]
      constructor
      · rintro ⟨h1, h2⟩
        refine ⟨h1, ?_⟩
        rintro ⟨hql, hfq⟩
        rcases List.mem_cons.mp hql with rfl | hql2
        · exact hf hfq
        · exact h2 ⟨hql2, hfq⟩
      · rintro ⟨h1, h2⟩
        refine ⟨h1, ?_⟩
        rintro ⟨hql, hfq⟩
        exact h2 ⟨List.mem_cons_of_mem p hql, hfq⟩

/-- Whether the classification loop removes key `p` from
`final_download`. -/
def removeB (newM oldM : List (String × DepotEntry)) (patched : List String) (p : String) :
    Bool :=
  match mapLookup newM p with
  | none => false
  | some nf => (classDecision patched p nf (mapLookup oldM p)).remove

/-- Membership in `final_download` after classification: the key
survives iff its arm does not remove it. -/
theorem mem_classifySet (newM oldM : List (String × DepotEntry)) (patched : List String)
    (q : String) :
    q ∈ classifySet newM oldM patched ↔
      q ∈ mapKeys newM ∧ removeB newM oldM patched q = false := by
  unfold classifySet
  rw [List.foldl_ext _
      (fun s p => if removeB newM oldM patched p then s.erase p else s) _ ?_]
  · rw [mem_foldl_erase _ _ _ (nodup_mapKeys newM) q]
    constructor
    · rintro ⟨h1, h2⟩
      refine ⟨h1, ?_⟩
      by_contra hr
      exact h2 ⟨h1, by simpa using hr⟩
    · rintro ⟨h1, h2⟩
      refine ⟨h1, ?_⟩
      rintro ⟨_, hf⟩
      rw [h2] at hf
      exact Bool.false_ne_true hf
  · intro s p _
    dsimp only
    unfold removeB
    rcases hl : mapLookup newM p with _ | nf
    · simp
    · rfl

/-- `final_download` after classification is duplicate-free. -/
theorem nodup_classifySet (newM oldM : List (String × DepotEntry)) (patched : List String) :
    (classifySet newM oldM patched).Nodup := by
  unfold classifySet
  suffices h : ∀ (l s : List String), s.Nodup →
      (l.foldl (fun s p =>
        match mapLookup newM p with
        | none => s
        | some nf => if (classDecision patched p nf (mapLookup oldM p)).remove
            then s.erase p else s) s).Nodup by
    exact h (mapKeys newM) (mapKeys newM) (nodup_mapKeys newM)
  intro l
  induction l with
  | nil => intro s hs; exact hs
  | cons p l ih =>
    intro s hs
    rw [List.foldl_cons]
    refine ih _ ?_
    dsimp only
    rcases hl : mapLookup newM p with _ | nf
    · exact hs
    · dsimp only
      by_cases hr : (classDecision patched p nf (mapLookup oldM p)).remove = true
      · rw [if_pos hr]
        exact hs.erase p
      · rw [if_neg hr]
        exact hs

/-- The lowercased paths of one list's entries. -/
def filePaths (files : List DepotEntry) : List String :=
  files.map (fun e => lowerStr e.path)

/-- The lowercased paths across a list of `FileList`s (the body of
`downloadPaths`). -/
def listsLowerPaths (lists : List FileList) : List String :=
  lists.foldl (fun acc l => acc ++ l.files.map (fun e => lowerStr e.path)) []

/-- `downloadPaths` is `listsLowerPaths` of the download component. -/
theorem downloadPaths_eq (r : DiffReport) : downloadPaths r = listsLowerPaths r.download :=
  rfl

/-- Membership in `listsLowerPaths`. -/
theorem mem_listsLowerPaths (lists : List FileList) (q : String) :
    q ∈ listsLowerPaths lists ↔ ∃ l ∈ lists, q ∈ filePaths l.files := by
  unfold listsLowerPaths
  rw [foldl_append_init (fun l : FileList => l.files.map (fun e => lowerStr e.path)) lists []]
  simp only [List.nil_append, List.mem_flatten, List.mem_map]
  constructor
  · rintro ⟨paths, ⟨l, hl, rfl⟩, hq⟩
    exact ⟨l, hl, hq⟩
  · rintro ⟨l, hl, hq⟩
    exact ⟨_, ⟨l, hl, rfl⟩, hq⟩

/-- What `rebuildFiles` does to the set, the kept entries and
duplicate-freedom, as membership facts. -/
theorem rebuildFiles_spec :
    ∀ (files : List DepotEntry) (s : List String) (needs : Bool) (kept : List DepotEntry),
      s.Nodup →
      ((rebuildFiles files s needs kept).2.1.Nodup ∧
       (∀ q, q ∈ (rebuildFiles files s needs kept).2.1 ↔
          q ∈ s ∧ q ∉ filePaths files) ∧
       (∀ q, q ∈ filePaths (rebuildFiles files s needs kept).1 ↔
          q ∈ filePaths kept ∨ (q ∈ s ∧ q ∈ filePaths files)))
  | [], s, needs, kept, hs => by
    refine ⟨hs, fun q => ?_, fun q => ?_⟩
    · simp [rebuildFiles, filePaths]
    · simp [rebuildFiles, filePaths]
  | e :: rest, s, needs, kept, hs => by
    rw [rebuildFiles]
    by_cases hp : lowerStr e.path ∈ s
    · rw [if_pos hp]
      have ih := rebuildFiles_spec rest (s.erase (lowerStr e.path))
        (if needs then true else sfcRefNeeds e) (kept ++ [e]) (hs.erase _)
      refine ⟨ih.1, fun q => ?_, fun q => ?_⟩
      · rw [ih.2.1 q]
        rw [List.Nodup.mem_erase_iff hs]
        simp only [filePaths, List.map_cons, List.mem_cons]
        constructor
        · rintro ⟨⟨hqp, hqs⟩, hqr⟩
          exact ⟨hqs, fun h => h.elim hqp hqr⟩
        · rintro ⟨hqs, hqn⟩
          exact ⟨⟨fun h => hqn (Or.inl h), hqs⟩, fun h => hqn (Or.inr h)⟩
      · rw [ih.2.2 q]
        rw [List.Nodup.mem_erase_iff hs]
        simp only [filePaths, List.map_append, List.map_cons, List.map_nil,
          List.mem_append, List.mem_cons, List.not_mem_nil, or_false, List.mem_singleton]
        constructor
        · rintro ((hk | hqe) | ⟨⟨hqp, hqs⟩, hqr⟩)
          · exact Or.inl hk
          · exact Or.inr ⟨hqe ▸ hp, Or.inl hqe⟩
          · exact Or.inr ⟨hqs, Or.inr hqr⟩
        · rintro (hk | ⟨hqs, hqe | hqr⟩)
          · exact Or.inl (Or.inl hk)
          · exact Or.inl (Or.inr hqe)
          · by_cases hqp : q = lowerStr e.path
            · exact Or.inl (Or.inr hqp)
            · exact Or.inr ⟨⟨hqp, hqs⟩, hqr⟩
    · rw [if_neg hp]
      have ih := rebuildFiles_spec rest s needs kept hs
      refine ⟨ih.1, fun q => ?_, fun q => ?_⟩
      · rw [ih.2.1 q]
        simp only [filePaths, List.map_cons, List.mem_cons]
        constructor
        · rintro ⟨hqs, hqr⟩
          refine ⟨hqs, ?_⟩
          rintro (hqe | hqr2)
          · exact hp (hqe ▸ hqs)
          · exact hqr hqr2
        · rintro ⟨hqs, hqn⟩
          exact ⟨hqs, fun h => hqn (Or.inr h)⟩
      · rw [ih.2.2 q]
        simp only [filePaths, List.map_cons, List.mem_cons]
        constructor
        · rintro (hk | ⟨hqs, hqr⟩)
          · exact Or.inl hk
          · exact Or.inr ⟨hqs, Or.inr hqr⟩
        · rintro (hk | ⟨hqs, hqe | hqr⟩)
          · exact Or.inl hk
          · exact absurd (hqe ▸ hqs) hp
          · exact Or.inr ⟨hqs, hqr⟩

/-- Membership in the download lists `rebuildLists` builds, generalized
over the fold accumulator. -/
theorem rebuildLists_mem (q : String) :
    ∀ (lists : List FileList) (dl : List FileList) (s : List String) (n : Nat), s.Nodup →
      (q ∈ listsLowerPaths
          (lists.foldl (fun acc l =>
            let r := rebuildFiles l.files acc.2.1 false []
            let newList : FileList := ⟨l.product_id, r.1, if r.2.2 then l.sfc else none,
              l.is_dependency⟩
            if r.1 = [] then (acc.1, r.2.1, acc.2.2)
            else (acc.1 ++ [newList], r.2.1, acc.2.2 + r.1.length)) (dl, s, n)).1 ↔
        q ∈ listsLowerPaths dl ∨ (q ∈ s ∧ q ∈ listsLowerPaths lists))
  | [], dl, s, n, hs => by
    simp [listsLowerPaths]
  | l :: lists, dl, s, n, hs => by
    rw [List.foldl_cons]
    have spec := rebuildFiles_spec l.files s false [] hs
    have hstep := rebuildLists_mem q lists
    dsimp only
    by_cases hkept : (rebuildFiles l.files s false []).1 = []
    · rw [if_pos hkept]
      rw [hstep dl (rebuildFiles l.files s false []).2.1 n spec.1]
      have hempty : ¬(q ∈ s ∧ q ∈ filePaths l.files) := by
        intro hq
        have := (spec.2.2 q).mpr (Or.inr hq)
        rw [hkept] at this
        simp [filePaths] at this
      rw [(spec.2.1 q : _)]
      rw [mem_listsLowerPaths (l :: lists) q]
      simp only [List.mem_cons]
      constructor
      · rintro (hdl | ⟨⟨hqs, hqn⟩, hql⟩)
        · exact Or.inl hdl
        · rcases (mem_listsLowerPaths lists q).mp hql with ⟨l2, hl2, hql2⟩
          exact Or.inr ⟨hqs, ⟨l2, Or.inr hl2, hql2⟩⟩
      · rintro (hdl | ⟨hqs, ⟨l2, hl2 | hl2, hql2⟩⟩)
        · exact Or.inl hdl
        · exact absurd ⟨hqs, hl2 ▸ hql2⟩ hempty
        · refine Or.inr ⟨⟨hqs, fun hqn => hempty ⟨hqs, hqn⟩⟩, ?_⟩
          exact (mem_listsLowerPaths lists q).mpr ⟨l2, hl2, hql2⟩
    · rw [if_neg hkept]
      rw [hstep _ (rebuildFiles l.files s false []).2.1 _ spec.1]
      have happ : ∀ q2, q2 ∈ listsLowerPaths (dl ++
          [⟨l.product_id, (rebuildFiles l.files s false []).1,
            if (rebuildFiles l.files s false []).2.2 then l.sfc else none,
            l.is_dependency⟩]) ↔
          q2 ∈ listsLowerPaths dl ∨ q2 ∈ filePaths (rebuildFiles l.files s false []).1 := by
        intro q2
        rw [mem_listsLowerPaths, mem_listsLowerPaths]
        constructor
        · rintro ⟨l2, hl2, hql2⟩
          rcases List.mem_append.mp hl2 with hl2 | hl2
          · exact Or.inl ⟨l2, hl2, hql2⟩
          · rcases List.mem_singleton.mp hl2 with rfl
            exact Or.inr hql2
        · rintro (⟨l2, hl2, hql2⟩ | hql)
          · exact ⟨l2, List.mem_append.mpr (Or.inl hl2), hql2⟩
          · exact ⟨_, List.mem_append.mpr (Or.inr (List.mem_singleton.mpr rfl)), hql⟩
      rw [happ q]
      rw [(spec.2.2 q : _), (spec.2.1 q : _)]
      rw [mem_listsLowerPaths (l :: lists) q]
      simp only [filePaths, List.map_nil, List.not_mem_nil, false_or, List.mem_cons]
      constructor
      · rintro ((hdl | ⟨hqs, hql⟩) | ⟨⟨hqs, hqn⟩, hql⟩)
        · exact Or.inl hdl
        · exact Or.inr ⟨hqs, ⟨l, Or.inl rfl, hql⟩⟩
        · rcases (mem_listsLowerPaths lists q).mp hql with ⟨l2, hl2, hql2⟩
          exact Or.inr ⟨hqs, ⟨l2, Or.inr hl2, hql2⟩⟩
      · rintro (hdl | ⟨hqs, ⟨l2, hl2 | hl2, hql2⟩⟩)
        · exact Or.inl (Or.inl hdl)
        · exact Or.inl (Or.inr ⟨hqs, hl2 ▸ hql2⟩)
        · by_cases hqn : q ∈ filePaths l.files
          · exact Or.inl (Or.inr ⟨hqs, hqn⟩)
          · refine Or.inr ⟨⟨hqs, hqn⟩, ?_⟩
            exact (mem_listsLowerPaths lists q).mpr ⟨l2, hl2, hql2⟩

/-- The new map's keys are exactly the lowercased paths of the new
entries. -/
theorem mem_mapKeys_mapListPairs (lists : List FileList) (q : String) :
    q ∈ mapKeys (mapListPairs lists) ↔ q ∈ listsLowerPaths lists := by
  rw [mem_mapKeys, mapListPairs_eq, mem_listsLowerPaths]
  constructor
  · intro hq
    rcases List.mem_map.mp hq with ⟨kv, hkv, rfl⟩
    rcases List.mem_flatten.mp hkv with ⟨pairs, hpairs, hkv2⟩
    rcases List.mem_map.mp hpairs with ⟨l, hl, rfl⟩
    rcases List.mem_map.mp hkv2 with ⟨e, he, rfl⟩
    refine ⟨l, hl, ?_⟩
    simp only [filePaths]
    exact List.mem_map.mpr ⟨e, he, rfl⟩
  · rintro ⟨l, hl, hq⟩
    simp only [filePaths] at hq
    rcases List.mem_map.mp hq with ⟨e, he, rfl⟩
    refine List.mem_map.mpr ⟨(lowerStr e.path, e), ?_, rfl⟩
    exact List.mem_flatten.mpr ⟨_, List.mem_map.mpr ⟨l, hl, rfl⟩, List.mem_map.mpr ⟨e, he, rfl⟩⟩

/-- Membership in the download paths of a successful `diff`: the key
survives into the download lists iff its classification keeps it. -/
theorem mem_downloadPaths_diff (newL oldL patchL : List FileList) (r : DiffReport)
    (hdiff : diff newL oldL patchL = some r) (q : String) :
    q ∈ downloadPaths r ↔
      q ∈ mapKeys (mapListPairs newL) ∧
        removeB (mapListPairs newL) (mapListPairs oldL) (patchedPaths patchL) q = false := by
  have hr : r = diffTotal newL oldL patchL := by
    unfold diff at hdiff
    by_cases hp : diffPanics newL oldL patchL = true
    · rw [if_pos hp] at hdiff
      cases hdiff
    · rw [if_neg hp] at hdiff
      exact (Option.some_inj.mp hdiff).symm
  subst hr
  rw [downloadPaths_eq]
  unfold diffTotal rebuildLists
  dsimp only
  rw [rebuildLists_mem q newL []
    (classifySet (mapListPairs newL) (mapListPairs oldL) (patchedPaths patchL)) 0
    (nodup_classifySet _ _ _)]
  simp only [listsLowerPaths, List.foldl_nil, List.not_mem_nil, false_or]
  rw [mem_classifySet]
  constructor
  · rintro ⟨⟨hk, hrm⟩, _⟩
    exact ⟨hk, hrm⟩
  · rintro ⟨hk, hrm⟩
    refine ⟨⟨hk, hrm⟩, ?_⟩
    have := (mem_mapKeys_mapListPairs newL q).mp hk
    simpa [listsLowerPaths] using this

/-- The condition under which the amended C1 marks a V2 file `f` at key
`p` as not-to-download, matching the classification arm for a V2 new
file: an old V1 file whose md5 equals `f`'s md5 (or `f`'s first chunk md5
when `f` carries no whole-file md5), or an old V2 file with `f` nonempty
and either `p` patched, an identical single chunk, matching whole-file
md5s, or matching sha256s. -/
def c1AmendedMatch (patched : List String) (p : String) (f : V2.DepotFile)
    (oldE : Option DepotEntry) : Prop :=
  match oldE with
  | some (.v1 (.file of)) =>
    match f.chunks with
    | [] => False
    | c :: _ => f.md5.getD c.md5 = of.hash
  | some (.v2 (.file of)) =>
    match f.chunks with
    | [] => False
    | nc :: _ =>
      p ∈ patched ∨
      (f.chunks.length = 1 ∧ of.chunks.length = 1 ∧ (of.chunks.headD nc).md5 = nc.md5) ∨
      (f.md5.isSome ∧ of.md5.isSome ∧ f.md5 = of.md5) ∨
      (f.sha256.isSome ∧ of.sha256.isSome ∧ f.sha256 = of.sha256)
  | _ => False

/-- The classification's removal decision for a V2 new file is exactly
`c1AmendedMatch`. -/
theorem classDecision_remove_v2file (patched : List String) (p : String) (f : V2.DepotFile)
    (oldE : Option DepotEntry) :
    ((classDecision patched p (.v2 (.file f)) oldE).remove = true ↔
      c1AmendedMatch patched p f oldE) := by
  unfold classDecision c1AmendedMatch
  rcases oldE with _ | e
  · simp
  rcases e with e1 | e2
  · rcases e1 with of | od
    · dsimp only
      rcases hc : f.chunks with _ | ⟨c, cs⟩
      · simp
      · simp [decide_eq_true_eq]
    · simp
  · rcases e2 with of | od | ol | odf
    · dsimp only
      rcases hc : f.chunks with _ | ⟨nc, ncs⟩
      · simp
      · dsimp only
        by_cases hpat : p ∈ patched
        · rw [if_pos hpat]
          simp [hpat]
        · rw [if_neg hpat]
          by_cases hsingle : (nc :: ncs).length = 1 ∧ of.chunks.length = 1 ∧
              (of.chunks.headD nc).md5 = nc.md5
          · rw [if_pos hsingle]
            simp [hpat, hsingle]
            exact Or.inl (List.headD_eq_head? of.chunks nc ▸ hsingle.2.2)
          · rw [if_neg hsingle]
            dsimp only
            constructor
            · intro h
              refine Or.inr (Or.inr ?_)
              simpa [Bool.or_eq_true, Bool.and_eq_true, decide_eq_true_eq,
                and_assoc] using h
            · rintro (h | h | h)
              · exact absurd h hpat
              · exact absurd h hsingle
              · simpa [Bool.or_eq_true, Bool.and_eq_true, decide_eq_true_eq,
                  and_assoc] using h
    · simp
    · simp
    · simp

/-- The new V2 file of the C1 counterexample: one chunk with md5 `m1`,
no whole-file md5, sha256 `s`. -/
def c1NewFile : V2.DepotFile := ⟨[⟨"cm1", "m1", 10, 5⟩], "A", none, some "s", none, []⟩

/-- The old V2 file at the same path: a different single chunk (md5
`m2`), no whole-file md5, the same sha256 `s`. -/
def c1OldFile : V2.DepotFile := ⟨[⟨"cm2", "m2", 10, 5⟩], "A", none, some "s", none, []⟩

/-- New entries for the C1 counterexample. -/
def c1New : List FileList := [⟨"P", [.v2 (.file c1NewFile)], none, false⟩]

/-- Old entries for the C1 counterexample. -/
def c1Old : List FileList := [⟨"P", [.v2 (.file c1OldFile)], none, false⟩]

/-- The whole-file md5 an entry exposes (a V1 file's `hash` is its
whole-file md5). -/
def wholeFileMd5 : DepotEntry → Option String
  | .v1 (.file vf) => some vf.hash
  | .v2 (.file vf) => vf.md5
  | _ => none

/-- The chunk list an entry exposes (V1 entries have none). -/
def entryChunks : DepotEntry → List Chunk
  | .v2 (.file vf) => vf.chunks
  | _ => []

/-- C1's right-hand side exactly as the claim states it: the old entries
contain an entry at the same case-insensitively-compared path whose
whole-file md5 equals `f`'s md5, or, when both files have exactly one
chunk, whose sole chunk md5 equals `f`'s sole chunk md5. -/
def c1ClaimRHSb (oldL : List FileList) (f : V2.DepotFile) : Bool :=
  oldL.any (fun l => l.files.any (fun e =>
    (lowerStr e.path == lowerStr (DepotEntry.v2 (V2.DepotEntry.file f)).path) &&
    ((match wholeFileMd5 e, f.md5 with
      | some a, some b => a == b
      | _, _ => false) ||
     (match entryChunks e, f.chunks with
      | [c1], [c2] => c1.md5 == c2.md5
      | _, _ => false))))

/-- Counterexample to C1 as stated: with matching sha256s but distinct
single-chunk md5s and no whole-file md5s, the new file is absent from
the download lists although neither of the claim's two conditions holds
(`diff` also removes on a sha256 match). -/
theorem c1_sha256_counterexample :
    ¬ (∀ r, diff c1New c1Old [] = some r →
        ((lowerStr (DepotEntry.v2 (V2.DepotEntry.file c1NewFile)).path ∉ downloadPaths r) ↔
          c1ClaimRHSb c1Old c1NewFile = true)) := by
  intro h
  have hd : diff c1New c1Old [] = some (diffTotal c1New c1Old []) := by decide
  have hiff := h _ hd
  have habs : lowerStr (DepotEntry.v2 (V2.DepotEntry.file c1NewFile)).path ∉
      downloadPaths (diffTotal c1New c1Old []) := by decide
  exact absurd (hiff.mp habs) (by decide)

/-- C1 (amended): when `diff` succeeds, the path of the V2 file `f` the
new map binds is absent from the download lists iff the classification
matches it against the old entry at the same lowercased path —
`c1AmendedMatch`: an old V1 file with equal md5 (falling back to `f`'s
first chunk md5), or an old V2 file with `f` nonempty and a patched
path, an identical single chunk, equal whole-file md5s, or equal
sha256s. -/
theorem c1_download_absence_amended (newL oldL patchL : List FileList) (r : DiffReport)
    (f : V2.DepotFile)
    (hdiff : diff newL oldL patchL = some r)
    (hlook : mapLookup (mapListPairs newL)
        (lowerStr (DepotEntry.v2 (V2.DepotEntry.file f)).path) = some (.v2 (.file f))) :
    (lowerStr (DepotEntry.v2 (V2.DepotEntry.file f)).path ∉ downloadPaths r ↔
      c1AmendedMatch (patchedPaths patchL)
        (lowerStr (DepotEntry.v2 (V2.DepotEntry.file f)).path) f
        (mapLookup (mapListPairs oldL)
          (lowerStr (DepotEntry.v2 (V2.DepotEntry.file f)).path))) := by
  have hkeys : lowerStr (DepotEntry.v2 (V2.DepotEntry.file f)).path ∈
      mapKeys (mapListPairs newL) := by
    rw [mem_mapKeys]
    refine (mapLookup_isSome _ _).mp ?_
    rw [hlook]
    rfl
  rw [mem_downloadPaths_diff newL oldL patchL r hdiff
    (lowerStr (DepotEntry.v2 (V2.DepotEntry.file f)).path)]
  constructor
  · intro hno
    have hrm : removeB (mapListPairs newL) (mapListPairs oldL) (patchedPaths patchL)
        (lowerStr (DepotEntry.v2 (V2.DepotEntry.file f)).path) = true := by
      by_contra hb
      exact hno ⟨hkeys, Bool.eq_false_iff.mpr hb⟩
    unfold removeB at hrm
    rw [hlook] at hrm
    exact (classDecision_remove_v2file _ _ _ _).mp hrm
  · intro hmatch
    rintro ⟨_, hrm⟩
    have hr2 : removeB (mapListPairs newL) (mapListPairs oldL) (patchedPaths patchL)
        (lowerStr (DepotEntry.v2 (V2.DepotEntry.file f)).path) = true := by
      unfold removeB
      rw [hlook]
      exact (classDecision_remove_v2file _ _ _ _).mpr hmatch
    rw [hrm] at hr2
    exact Bool.false_ne_true hr2

/-- Witness for the amended C1 at the counterexample input. -/
theorem c1_download_absence_witness :
    (lowerStr (DepotEntry.v2 (V2.DepotEntry.file c1NewFile)).path ∉
        downloadPaths (diffTotal c1New c1Old []) ↔
      c1AmendedMatch (patchedPaths [])
        (lowerStr (DepotEntry.v2 (V2.DepotEntry.file c1NewFile)).path) c1NewFile
        (mapLookup (mapListPairs c1Old)
          (lowerStr (DepotEntry.v2 (V2.DepotEntry.file c1NewFile)).path))) :=
  c1_download_absence_amended c1New c1Old [] (diffTotal c1New c1Old []) c1NewFile
    (by decide) (by decide)

/-! ## C10: the patch-path lookup in diff -/

/-- A fold that appends the value of `f` when it is `some` is the
filterMap. -/
theorem foldl_append_filterMap {α β : Type} (f : β → Option α) (step : List α → β → List α)
    (hstep : ∀ acc b, step acc b =
      match f b with
      | some a => acc ++ [a]
      | none => acc) :
    ∀ (l : List β) (acc : List α), l.foldl step acc = acc ++ l.filterMap f
  | [], acc => by simp
  | b :: bs, acc => by
    rw [List.foldl_cons, hstep, List.filterMap_cons]
    rcases hf : f b with _ | a
    · exact foldl_append_filterMap f step hstep bs acc
    · rw [foldl_append_filterMap f step hstep bs (acc ++ [a])]
      simp [List.append_assoc]

/-- The projection the patch loop extracts from an entry: a lowercased
V2 path, nothing for a V1 entry. -/
def patchV2Path : DepotEntry → Option String
  | .v2 v2e => some (lowerStr v2e.path)
  | .v1 _ => none

/-- `patchedPaths` in closed form. -/
theorem patchedPaths_eq (patchLists : List FileList) :
    patchedPaths patchLists =
      (patchLists.map (fun l => l.files.filterMap patchV2Path)).flatten := by
  unfold patchedPaths
  rw [List.foldl_ext _ (fun acc l => acc ++ l.files.filterMap patchV2Path) []
      (fun acc l _ => by
        refine foldl_append_filterMap patchV2Path _ ?_ l.files acc
        intro acc e
        rcases e with e1 | e2 <;> rfl)]
  simpa using
    foldl_append_init (fun l : FileList => l.files.filterMap patchV2Path) patchLists []

/-- Every V2 patch entry's lowercased path is a patched path. -/
theorem mem_patchedPaths (patchLists : List FileList) (l : FileList) (v2e : V2.DepotEntry)
    (hl : l ∈ patchLists) (he : DepotEntry.v2 v2e ∈ l.files) :
    lowerStr v2e.path ∈ patchedPaths patchLists := by
  rw [patchedPaths_eq]
  refine List.mem_flatten.mpr ⟨l.files.filterMap patchV2Path, List.mem_map.mpr ⟨l, hl, rfl⟩, ?_⟩
  exact List.mem_filterMap.mpr ⟨.v2 v2e, he, rfl⟩

/-- The concrete new entries for the C10 counterexample run. -/
def c10New : List FileList :=
  [⟨"P", [.v2 (.file ⟨[⟨"cc1", "m1", 10, 5⟩], "A", none, none, some "mm", []⟩)], none, false⟩]

/-- A patch list whose sole `Diff` entry targets a path (`Other`) absent
from the new entries. -/
def c10BadPatches : List FileList :=
  [⟨"P", [.v2 (.diff ⟨"ms", "mt", "Other", "Other", "md", [⟨"cc", "c", 4, 2⟩]⟩)], none, false⟩]

/-- A patch list whose sole `Diff` entry targets the present path `A`. -/
def c10GoodPatches : List FileList :=
  [⟨"P", [.v2 (.diff ⟨"ms", "mt", "A", "A", "md", [⟨"cc", "c", 4, 2⟩]⟩)], none, false⟩]

/-- C10: when every patch entry's lowercased path has a binding among the
new entries, the patch loop's `unwrap` cannot fire; and on a concrete
input whose patch path is absent from the new entries, `diff` panics
(returns `none`). -/
theorem c10_patch_lookup_safety (newL patchL : List FileList)
    (h : ∀ p ∈ patchedPaths patchL, p ∈ (mapListPairs newL).map Prod.fst) :
    patchLookupPanics (mapListPairs newL) patchL = false ∧
    diff c10New [] c10BadPatches = none := by
  constructor
  · unfold patchLookupPanics
    rw [List.any_eq_false]
    intro l hl
    rw [Bool.not_eq_true, List.any_eq_false]
    intro e he
    rw [Bool.not_eq_true]
    rcases e with e1 | v2e
    · rfl
    · have hmem := h (lowerStr v2e.path) (mem_patchedPaths patchL l v2e hl he)
      have hsome := (mapLookup_isSome (mapListPairs newL) (lowerStr v2e.path)).mpr hmem
      rcases Option.isSome_iff_exists.mp hsome with ⟨x, hx⟩
      simp [hx]
  · decide

/-- Witness for C10 at a patch list whose path is present. -/
theorem c10_patch_lookup_witness :
    patchLookupPanics (mapListPairs c10New) c10GoodPatches = false ∧
    diff c10New [] c10BadPatches = none :=
  c10_patch_lookup_safety c10New c10GoodPatches (by decide)

/-! ## C8: zero-size file entries in download() -/

/-- Whether an entry is a file (of either generation). -/
def isFileEntry : DepotEntry → Bool
  | .v1 (.file _) => true
  | .v2 (.file _) => true
  | _ => false

/-- A file entry is not a directory. -/
theorem isDir_eq_false_of_isFileEntry (e : DepotEntry) (h : isFileEntry e = true) :
    e.isDir = false := by
  rcases e with e1 | e2
  · rcases e1 with f | dd
    · rfl
    · simp [isFileEntry] at h
  · rcases e2 with f | dd | lk | df
    · rfl
    · simp [isFileEntry] at h
    · simp [isFileEntry] at h
    · simp [isFileEntry] at h

/-- The file path a worker task downloads to, when it is a plain file
task (`sfcTask` writes the SFC blob keyed by chunk md5; `diffTask`
writes the `.diff` sidecar). -/
def taskFilePath : WorkerTask → Option String
  | .v2Task _ p _ => some p
  | .v1Task _ p _ => some p
  | _ => none

/-- One allocation state extends another: every component grew by a
suffix. -/
def AllocExtends (st st2 : AllocState) : Prop :=
  ∃ ta tr tp ts, st2 = ⟨st.actions ++ ta, st.ready_files ++ tr,
    st.ready_patches ++ tp, st.symlinks ++ ts⟩

/-- Extension is reflexive. -/
theorem AllocExtends.rfl (st : AllocState) : AllocExtends st st :=
  ⟨[], [], [], [], by simp⟩

/-- Extension composes. -/
theorem AllocExtends.trans {st1 st2 st3 : AllocState}
    (h1 : AllocExtends st1 st2) (h2 : AllocExtends st2 st3) : AllocExtends st1 st3 := by
  obtain ⟨a1, r1, p1, s1, rfl⟩ := h1
  obtain ⟨a2, r2, p2, s2, rfl⟩ := h2
  exact ⟨a1 ++ a2, r1 ++ r2, p1 ++ p2, s1 ++ s2, by simp⟩

/-- Membership survives extension. -/
theorem AllocExtends.mem_actions {st st2 : AllocState} (h : AllocExtends st st2)
    {a : AllocAction} (ha : a ∈ st.actions) : a ∈ st2.actions := by
  obtain ⟨a1, r1, p1, s1, rfl⟩ := h
  exact List.mem_append_left _ ha

/-- Ready-file membership survives extension. -/
theorem AllocExtends.mem_ready {st st2 : AllocState} (h : AllocExtends st st2)
    {q : String} (hq : q ∈ st.ready_files) : q ∈ st2.ready_files := by
  obtain ⟨a1, r1, p1, s1, rfl⟩ := h
  exact List.mem_append_left _ hq

/-- Appending to the actions extends. -/
theorem allocExtends_actions (st : AllocState) (xs : List AllocAction) :
    AllocExtends st ⟨st.actions ++ xs, st.ready_files, st.ready_patches, st.symlinks⟩ :=
  ⟨xs, [], [], [], by simp⟩

/-- Appending to the actions and ready files extends. -/
theorem allocExtends_actions_ready (st : AllocState) (xs : List AllocAction)
    (ys : List String) :
    AllocExtends st
      ⟨st.actions ++ xs, st.ready_files ++ ys, st.ready_patches, st.symlinks⟩ :=
  ⟨xs, ys, [], [], by simp⟩

/-- Appending to the ready files extends. -/
theorem allocExtends_ready (st : AllocState) (ys : List String) :
    AllocExtends st ⟨st.actions, st.ready_files ++ ys, st.ready_patches, st.symlinks⟩ :=
  ⟨[], ys, [], [], by simp⟩

/-- Appending to the ready patches extends. -/
theorem allocExtends_patches (st : AllocState) (ys : List String) :
    AllocExtends st ⟨st.actions, st.ready_files, st.ready_patches ++ ys, st.symlinks⟩ :=
  ⟨[], [], ys, [], by simp⟩

/-- Appending to the symlinks extends. -/
theorem allocExtends_symlinks (st : AllocState) (ys : List (String × String)) :
    AllocExtends st ⟨st.actions, st.ready_files, st.ready_patches, st.symlinks ++ ys⟩ :=
  ⟨[], [], [], ys, by simp⟩

/-- Every allocation step only appends. -/
theorem allocateEntry_extends (d : DownloaderCfg) (fs : Fs) (pid : String)
    (st : AllocState) (e : DepotEntry) : AllocExtends st (allocateEntry d fs pid st e) := by
  unfold allocateEntry
  dsimp only
  by_cases h1 : e.isDir = true
  · rw [if_pos h1]
    exact allocExtends_actions st _
  · rw [if_neg h1]
    by_cases h2 : e.size = 0
    · rw [if_pos h2]
      rcases e with e1 | e2
      · rcases e1 with f | dd
        · exact allocExtends_actions_ready st _ _
        · exact AllocExtends.rfl st
      · rcases e2 with f | dd | lk | df
        · exact allocExtends_actions_ready st _ _
        · exact AllocExtends.rfl st
        · exact allocExtends_symlinks st _
        · exact AllocExtends.rfl st
    · rw [if_neg h2]
      rcases hst : getFileStatus fs
          (pathJoin (getFileRoot d e.isSupport pid false) e.path) with _ | _ | ch | _ | _
      · dsimp only
        exact allocExtends_actions st _
      · dsimp only
        exact allocExtends_actions st _
      · dsimp only
        exact AllocExtends.rfl st
      · dsimp only
        exact allocExtends_ready st _
      · dsimp only
        exact allocExtends_ready st _

/-- The SFC allocation step only appends. -/
theorem allocateSfc_extends (d : DownloaderCfg) (fs : Fs) (st : AllocState) (l : FileList) :
    AllocExtends st (allocateSfc d fs st l) := by
  unfold allocateSfc
  rcases l.sfc with _ | sfc
  · exact AllocExtends.rfl st
  · dsimp only
    rcases sfc.chunks with _ | ⟨c, cs⟩
    · exact AllocExtends.rfl st
    · dsimp only
      rcases hst : getFileStatus fs
          (pathJoin (getFileRoot d false l.product_id false) c.md5) with _ | _ | ch | _ | _
      · dsimp only
        exact allocExtends_actions st _
      · dsimp only
        exact allocExtends_actions st _
      · dsimp only
        exact allocExtends_ready st _
      · dsimp only
        exact allocExtends_ready st _
      · dsimp only
        exact allocExtends_ready st _

/-- The patch allocation step only appends. -/
theorem allocatePatch_extends (d : DownloaderCfg) (fs : Fs) (st : AllocState) (p : Patch) :
    AllocExtends st (allocatePatch d fs st p) := by
  unfold allocatePatch
  dsimp only
  rcases hst : getFileStatus fs
      (pathJoin (getFileRoot d p.diff.isSupport p.product_id false) p.diff.path)
      with _ | _ | ch | _ | _
  · dsimp only
    exact allocExtends_actions st _
  · dsimp only
    exact allocExtends_actions st _
  · dsimp only
    exact AllocExtends.rfl st
  · dsimp only
    exact allocExtends_patches st _
  · dsimp only
    exact allocExtends_ready st _

/-- A fold of appending steps only appends. -/
theorem foldl_allocExtends {β : Type} (step : AllocState → β → AllocState)
    (hstep : ∀ st b, AllocExtends st (step st b)) :
    ∀ (l : List β) (st : AllocState), AllocExtends st (l.foldl step st)
  | [], st => AllocExtends.rfl st
  | b :: bs, st =>
    AllocExtends.trans (hstep st b) (foldl_allocExtends step hstep bs (step st b))

/-- Allocating a zero-size file entry creates it empty and marks it
ready. -/
theorem allocateEntry_zero_file (d : DownloaderCfg) (fs : Fs) (pid : String)
    (st : AllocState) (e : DepotEntry) (hf : isFileEntry e = true) (hz : e.size = 0) :
    (allocateEntry d fs pid st e).actions =
      st.actions ++
        [.createEmptyFile (pathJoin (getFileRoot d e.isSupport pid false) e.path)] ∧
    (allocateEntry d fs pid st e).ready_files = st.ready_files ++ [e.path] := by
  unfold allocateEntry
  dsimp only
  rw [if_neg (by simp [isDir_eq_false_of_isFileEntry e hf]), if_pos hz]
  rcases e with e1 | e2
  · rcases e1 with f | dd
    · exact ⟨rfl, rfl⟩
    · simp [isFileEntry] at hf
  · rcases e2 with f | dd | lk | df
    · exact ⟨rfl, rfl⟩
    · simp [isFileEntry] at hf
    · simp [isFileEntry] at hf
    · simp [isFileEntry] at hf

/-- Folding the allocation over a list of entries containing a zero-size
file entry records its creation and readiness. -/
theorem files_fold_adds (d : DownloaderCfg) (fs : Fs) (pid : String) (e : DepotEntry)
    (hf : isFileEntry e = true) (hz : e.size = 0) :
    ∀ (files : List DepotEntry) (st : AllocState), e ∈ files →
      (AllocAction.createEmptyFile (pathJoin (getFileRoot d e.isSupport pid false) e.path)
        ∈ (files.foldl (allocateEntry d fs pid) st).actions ∧
       e.path ∈ (files.foldl (allocateEntry d fs pid) st).ready_files)
  | [], st, he => absurd he (List.not_mem_nil e)
  | x :: rest, st, he => by
    rw [List.foldl_cons]
    have hext := foldl_allocExtends (allocateEntry d fs pid)
      (allocateEntry_extends d fs pid) rest (allocateEntry d fs pid st x)
    rcases List.mem_cons.mp he with rfl | he2
    · have hadd := allocateEntry_zero_file d fs pid st e hf hz
      constructor
      · exact hext.mem_actions (by rw [hadd.1]; exact List.mem_append_right _ (by simp))
      · exact hext.mem_ready (by rw [hadd.2]; exact List.mem_append_right _ (by simp))
    · exact files_fold_adds d fs pid e hf hz rest (allocateEntry d fs pid st x) he2

/-- The per-list allocation step (SFC, then entries) only appends. -/
theorem downloadListStep_extends (d : DownloaderCfg) (fs : Fs) (st : AllocState)
    (l : FileList) :
    AllocExtends st (l.files.foldl (allocateEntry d fs l.product_id)
      (allocateSfc d fs st l)) :=
  AllocExtends.trans (allocateSfc_extends d fs st l)
    (foldl_allocExtends _ (allocateEntry_extends d fs l.product_id) l.files
      (allocateSfc d fs st l))

/-- Folding over the download lists records the zero-size entry of any
member list. -/
theorem download_fold_adds (d : DownloaderCfg) (fs : Fs) (l : FileList) (e : DepotEntry)
    (hf : isFileEntry e = true) (hz : e.size = 0) (he : e ∈ l.files) :
    ∀ (lists : List FileList) (st : AllocState), l ∈ lists →
      (AllocAction.createEmptyFile
          (pathJoin (getFileRoot d e.isSupport l.product_id false) e.path)
        ∈ (lists.foldl (fun st l2 =>
            l2.files.foldl (allocateEntry d fs l2.product_id) (allocateSfc d fs st l2))
            st).actions ∧
       e.path ∈ (lists.foldl (fun st l2 =>
            l2.files.foldl (allocateEntry d fs l2.product_id) (allocateSfc d fs st l2))
            st).ready_files)
  | [], st, hl => absurd hl (List.not_mem_nil l)
  | l2 :: rest, st, hl => by
    rw [List.foldl_cons]
    have hext := foldl_allocExtends
      (fun st l2 => l2.files.foldl (allocateEntry d fs l2.product_id)
        (allocateSfc d fs st l2))
      (fun st l2 => downloadListStep_extends d fs st l2) rest
      (l2.files.foldl (allocateEntry d fs l2.product_id) (allocateSfc d fs st l2))
    rcases List.mem_cons.mp hl with rfl | hl2
    · have hsfc := allocateSfc_extends d fs st l
      have hin := files_fold_adds d fs l.product_id e hf hz l.files
        (allocateSfc d fs st l) he
      exact ⟨hext.mem_actions hin.1, hext.mem_ready hin.2⟩
    · exact download_fold_adds d fs l e hf hz he rest _ hl2

/-- Every plain file task spawned for one list has a path that was not
ready. -/
theorem spawnList_filePath_not_ready (ready : List String) (l : FileList) :
    ∀ t ∈ spawnList ready l, ∀ q, taskFilePath t = some q → ready.contains q = false := by
  unfold spawnList
  intro t ht q hq
  rcases List.mem_append.mp ht with hsfc | hfold
  · rcases hs : l.sfc with _ | sfc
    · rw [hs] at hsfc
      simp at hsfc
    · rw [hs] at hsfc
      dsimp only at hsfc
      rcases hc : sfc.chunks with _ | ⟨c, cs⟩
      · rw [hc] at hsfc
        simp at hsfc
      · rw [hc] at hsfc
        dsimp only at hsfc
        by_cases hr : ready.contains c.md5 = true
        · rw [if_pos hr] at hsfc
          simp at hsfc
        · rw [if_neg hr] at hsfc
          rcases List.mem_singleton.mp hsfc with rfl
          simp [taskFilePath] at hq
  · revert hfold
    suffices hgen : ∀ (files : List DepotEntry) (acc : List WorkerTask),
        (∀ t2 ∈ acc, ∀ q2, taskFilePath t2 = some q2 → ready.contains q2 = false) →
        t ∈ files.foldl (fun acc file =>
          if ready.contains file.path || file.isDir then acc
          else
            match file with
            | .v2 v2_entry =>
              match v2_entry with
              | .file f =>
                if f.sfc_ref.isSome then acc
                else acc ++ [.v2Task l.product_id file.path (.file f)]
              | _ => acc ++ [.v2Task l.product_id file.path v2_entry]
            | .v1 v1_entry => acc ++ [.v1Task l.product_id file.path v1_entry]) acc →
        ready.contains q = false by
      intro hfold
      exact hgen l.files [] (by simp) hfold
    intro files
    induction files with
    | nil =>
      intro acc hacc ht2
      simp only [List.foldl_nil] at ht2
      exact hacc t ht2 q hq
    | cons x rest ih =>
      intro acc hacc ht2
      rw [List.foldl_cons] at ht2
      refine ih _ ?_ ht2
      intro t2 ht3 q2 hq2
      by_cases hg : (ready.contains x.path || x.isDir) = true
      · rw [if_pos hg] at ht3
        exact hacc t2 ht3 q2 hq2
      · rw [if_neg hg] at ht3
        have hnr : ready.contains x.path = false := by
          rcases Bool.or_eq_false_iff.mp (Bool.eq_false_iff.mpr hg) with ⟨h1, _⟩
          exact h1
        rcases x with e1 | e2
        · dsimp only at ht3
          rcases List.mem_append.mp ht3 with h | h
          · exact hacc t2 h q2 hq2
          · rcases List.mem_singleton.mp h with rfl
            simp only [taskFilePath, Option.some_inj] at hq2
            rw [← hq2]
            exact hnr
        · rcases e2 with f | dd | lk | df
          · dsimp only at ht3
            by_cases hsr : f.sfc_ref.isSome = true
            · rw [if_pos hsr] at ht3
              exact hacc t2 ht3 q2 hq2
            · rw [if_neg hsr] at ht3
              rcases List.mem_append.mp ht3 with h | h
              · exact hacc t2 h q2 hq2
              · rcases List.mem_singleton.mp h with rfl
                simp only [taskFilePath, Option.some_inj] at hq2
                rw [← hq2]
                exact hnr
          all_goals
            dsimp only at ht3
            rcases List.mem_append.mp ht3 with h | h
            · exact hacc t2 h q2 hq2
            · rcases List.mem_singleton.mp h with rfl
              simp only [taskFilePath, Option.some_inj] at hq2
              rw [← hq2]
              exact hnr

/-- Every plain file task of the whole spawn phase has a path that was
not ready. -/
theorem spawnPhase_filePath_not_ready (r : DiffReport) (ready rp : List String) :
    ∀ t ∈ spawnPhase r ready rp, ∀ q, taskFilePath t = some q →
      ready.contains q = false := by
  unfold spawnPhase
  intro t ht q hq
  rcases List.mem_append.mp ht with hdl | hpt
  · rw [foldl_append_init (spawnList ready) r.download []] at hdl
    simp only [List.nil_append] at hdl
    rcases List.mem_flatten.mp hdl with ⟨tasks, htasks, ht2⟩
    rcases List.mem_map.mp htasks with ⟨l, _, rfl⟩
    exact spawnList_filePath_not_ready ready l t ht2 q hq
  · suffices hgen : ∀ (ps : List Patch) (acc : List WorkerTask),
        (∀ t2 ∈ acc, ∀ q2, taskFilePath t2 = some q2 → ready.contains q2 = false) →
        t ∈ ps.foldl (fun acc p =>
          if rp.contains p.diff.path then acc
          else acc ++ [.diffTask p.product_id (p.diff.path ++ ".diff") p.diff]) acc →
        ready.contains q = false by
      exact hgen r.patches [] (by simp) hpt
    intro ps
    induction ps with
    | nil =>
      intro acc hacc ht2
      simp only [List.foldl_nil] at ht2
      exact hacc t ht2 q hq
    | cons p rest ih =>
      intro acc hacc ht2
      rw [List.foldl_cons] at ht2
      refine ih _ ?_ ht2
      intro t2 ht3 q2 hq2
      by_cases hg : rp.contains p.diff.path = true
      · rw [if_pos hg] at ht3
        exact hacc t2 ht3 q2 hq2
      · rw [if_neg hg] at ht3
        rcases List.mem_append.mp ht3 with h | h
        · exact hacc t2 h q2 hq2
        · rcases List.mem_singleton.mp h with rfl
          simp [taskFilePath] at hq2

/-- C8: a file entry of total size 0 (a V1 file of size 0 or a V2 file
with no chunks both have `size = 0`) is created empty at its staging
path during allocation, marked ready, and no v1/v2 file worker task is
spawned for its path — so no HTTP request is issued for it.  The
`reportSfcPanics` hypothesis keeps the run inside the modelled
non-panicking executions (an SFC with no chunks aborts `download`
earlier). -/
theorem c8_zero_size_files (d : DownloaderCfg) (fs : Fs) (r : DiffReport)
    (l : FileList) (e : DepotEntry)
    (hsfc : reportSfcPanics r = false)
    (hl : l ∈ r.download) (he : e ∈ l.files)
    (hf : isFileEntry e = true) (hz : e.size = 0) :
    (AllocAction.createEmptyFile
        (pathJoin (getFileRoot d e.isSupport l.product_id false) e.path)
      ∈ (allocatePhase d fs r).actions) ∧
    e.path ∈ (allocatePhase d fs r).ready_files ∧
    (∀ t ∈ spawnPhase r (allocatePhase d fs r).ready_files
        (allocatePhase d fs r).ready_patches,
      taskFilePath t ≠ some e.path) := by
  have hdl := download_fold_adds d fs l e hf hz he r.download ⟨[], [], [], []⟩ hl
  have hpext := foldl_allocExtends (allocatePatch d fs) (allocatePatch_extends d fs)
    r.patches (r.download.foldl (fun st l2 =>
      l2.files.foldl (allocateEntry d fs l2.product_id) (allocateSfc d fs st l2))
      ⟨[], [], [], []⟩)
  have hact : AllocAction.createEmptyFile
      (pathJoin (getFileRoot d e.isSupport l.product_id false) e.path)
      ∈ (allocatePhase d fs r).actions := hpext.mem_actions hdl.1
  have hready : e.path ∈ (allocatePhase d fs r).ready_files := hpext.mem_ready hdl.2
  refine ⟨hact, hready, ?_⟩
  intro t ht hq
  have hfalse := spawnPhase_filePath_not_ready r (allocatePhase d fs r).ready_files
    (allocatePhase d fs r).ready_patches t ht e.path hq
  have htrue : (allocatePhase d fs r).ready_files.contains e.path = true :=
    List.elem_eq_true_of_mem hready
  exact Bool.false_ne_true (hfalse.symm.trans htrue)

/-- A zero-size V2 file (no chunks) for the concrete C8 check. -/
def entry8 : DepotEntry := .v2 (.file ⟨[], "empty.bin", none, none, none, []⟩)

/-- Its download list. -/
def list8 : FileList := ⟨"P", [entry8], none, false⟩

/-- Its report. -/
def report8 : DiffReport := ⟨[list8], [], [], [], 1⟩

/-- Witness for C8 at the concrete zero-size file. -/
theorem c8_zero_size_files_witness :
    (AllocAction.createEmptyFile
        (pathJoin (getFileRoot cfgW entry8.isSupport list8.product_id false) entry8.path)
      ∈ (allocatePhase cfgW fsEmpty report8).actions) ∧
    entry8.path ∈ (allocatePhase cfgW fsEmpty report8).ready_files ∧
    (∀ t ∈ spawnPhase report8 (allocatePhase cfgW fsEmpty report8).ready_files
        (allocatePhase cfgW fsEmpty report8).ready_patches,
      taskFilePath t ≠ some entry8.path) :=
  c8_zero_size_files cfgW fsEmpty report8 list8 entry8
    (by decide) (by decide) (by decide) (by decide) (by decide)

/-! ## C6 and C7 -/

/-- C6: calling `download()` on a `Downloader` whose `prepare()` has not
stored a download report returns the `NotReady` error; quantifying over
the `rest` continuation shows the rest of the function (allocation,
spawning, anything effectful) never runs. -/
theorem c6_download_not_ready {α : Type} (report : Option DiffReport)
    (rest : DiffReport → Except WarpError α) (h : report = none) :
    downloadEntry report rest =
      .error (.notReady "download not ready, did you forget Downloader::prepare()?") := by
  subst h; rfl

/-- Witness for C6 at a concrete continuation. -/
theorem c6_download_not_ready_witness :
    downloadEntry (α := Unit) none (fun _ => .ok ()) =
      .error (.notReady "download not ready, did you forget Downloader::prepare()?") :=
  c6_download_not_ready none (fun _ => .ok ()) rfl

/-- The substitution pass described by the spec sentence for
`assemble_url`: replace every `{p}` occurrence in the format with the
parameter's stringified value, the `"path"` parameter's value first
extended with `"/" + relative`. -/
def substituteParams (fmt : String) (params : List (String × JsonValue)) (path : String) :
    String :=
  match params with
  | [] => fmt
  | pv :: rest =>
    substituteParams
      (strReplace fmt ("\x7b" ++ pv.1 ++ "\x7d")
        (if pv.1 = "path" then jsonValueToString pv.2 ++ "/" ++ path
         else jsonValueToString pv.2))
      rest path

/-- C7: `assemble_url` appends `"/" + path` to the format when the
parameters map is empty, and otherwise substitutes every `{param}`
placeholder with the parameter's stringified value, the `"path"`
parameter extended by `"/" + path` before substitution. -/
theorem c7_assemble_url (e : Endpoint) (path : String) :
    assembleUrl e path =
      if e.parameters = [] then e.url_format ++ "/" ++ path
      else substituteParams e.url_format e.parameters path := by
  unfold assembleUrl
  rcases hp : e.parameters with _ | ⟨pv, rest⟩
  · simp
  · simp only [hp, if_neg (by simp : ¬pv :: rest = [])]
    generalize e.url_format = fmt
    clear hp
    induction rest generalizing fmt pv with
    | nil => simp [substituteParams]
    | cons pv2 rest ih =>
      simp only [List.foldl_cons, substituteParams]
      exact ih pv2 _

end GogWarp
